import Mathlib

/-!
# A verification development for `simple_vector.h`

The class template `SimpleVector<Type>` of `src/simple-vector/simple_vector.h`
is embedded as pure functions over an explicit container state.

Modelling conventions.

* A buffer (`ArrayPtr<Type>`) is the list of the values held by its slots; the
  list's length is the number of slots allocated.  The null buffer is `[]`.
* An iterator is the offset of the slot it points to from `begin()`.
* `size_t` quantities are natural numbers.  A buffer of `capacity_` slots is
  really allocated, so `capacity_` is bounded by the address space and neither
  `size_ + 1` nor `capacity_ * 2` can wrap; no operation is applied to an
  argument for which `--size_` would wrap.
* `Type{}` is `default` of an inhabited type.
* `operator new[]` is a parameter `heap`: for a requested slot count it either
  fails or gives the (arbitrary) initial contents of the slots.
* A member function that can throw returns the object after the call together
  with `Except Error _`: a thrown exception leaves an object behind, and what
  that object holds is part of what is verified.
* The element-wise algorithms `std::fill`, `std::copy` and `std::move` are the
  loops the standard defines them by, run forward from `first` to `last`.
  A move leaves its source slot holding `mv x`, where `mv` is a parameter
  (the moved-from state of the element type; the identity for scalars).
* The element type's `operator<` is a parameter `lt`.
* Where the question is whether two containers share a buffer, the members
  concerned are embedded a second time over a store of buffers (`Layout`), and
  shown to agree with the embedding on values.
-/

set_option autoImplicit false

/-- The two exceptions the container can throw: `std::out_of_range` and
`std::bad_alloc`. -/
inductive Error where
  | out_of_range
  | bad_alloc
  deriving DecidableEq

/-- The allocation service: for a slot count, either failure (`none`) or the
initial value of each slot of the new storage. -/
abbrev Heap (α : Type) := Nat → Option (Nat → α)

namespace ArrayPtr

/-- Modelled from the spec: `array_ptr.h` (the Owned Buffer) is not among the
sources.  `Allocate(capacity)` returns a buffer owning storage for exactly
`capacity` elements, a capacity of 0 yields the null buffer without asking the
allocation service, and otherwise it either fully succeeds or fails with an
allocation error. -/
def create {α : Type} (heap : Heap α) (size : Nat) : Except Error (List α) :=
  if size = 0 then .ok []
  else
    match heap size with
    | none => .error .bad_alloc
    | some init => .ok ((List.range size).map init)

end ArrayPtr

/-! ## Element-wise algorithms -/

/-- The loop of `std::fill`: `n` assignments of `value`, from slot `first` on. -/
def fillN {α : Type} (value : α) : Nat → Nat → List α → List α
  | 0, _, buf => buf
  | n + 1, first, buf => fillN value n (first + 1) (buf.set first value)

/-- Algorithm `std::fill(first, last, value)` on a buffer. -/
def stdFill {α : Type} (buf : List α) (first last : Nat) (value : α) : List α :=
  fillN value (last - first) first buf

/-- The loop of `std::copy` / `std::move` from one buffer into another one:
`n` assignments `dst[d_first++] = src[first++]`. -/
def copyN {α : Type} (src : List α) : Nat → Nat → Nat → List α → List α
  | 0, _, _, dst => dst
  | n + 1, first, d_first, dst =>
    match src[first]? with
    | some x => copyN src n (first + 1) (d_first + 1) (dst.set d_first x)
    | none => dst

/-- Algorithm `std::copy(first, last, d_first)` (and `std::move` of a source buffer that
is discarded afterwards) where the destination is another buffer. -/
def stdCopy {α : Type} (src : List α) (first last : Nat) (dst : List α) (d_first : Nat) :
    List α :=
  copyN src (last - first) first d_first dst

/-- The loop of `std::copy` when source and destination lie in the same
buffer: `n` assignments `buf[d_first++] = buf[first++]`, each reading the
buffer as the previous assignments left it. -/
def copyWithinN {α : Type} : Nat → Nat → Nat → List α → List α
  | 0, _, _, buf => buf
  | n + 1, first, d_first, buf =>
    match buf[first]? with
    | some x => copyWithinN n (first + 1) (d_first + 1) (buf.set d_first x)
    | none => buf

/-- Algorithm `std::copy(first, last, d_first)` within one buffer. -/
def stdCopyWithin {α : Type} (buf : List α) (first last d_first : Nat) : List α :=
  copyWithinN (last - first) first d_first buf

/-- The loop of `std::move` within one buffer: as `copyWithinN`, and each
source slot is left in its moved-from state. -/
def moveWithinN {α : Type} (mv : α → α) : Nat → Nat → Nat → List α → List α
  | 0, _, _, buf => buf
  | n + 1, first, d_first, buf =>
    match buf[first]? with
    | some x => moveWithinN mv n (first + 1) (d_first + 1) ((buf.set d_first x).set first (mv x))
    | none => buf

/-- Algorithm `std::move(first, last, d_first)` within one buffer. -/
def stdMoveWithin {α : Type} (mv : α → α) (buf : List α) (first last d_first : Nat) : List α :=
  moveWithinN mv (last - first) first d_first buf

/-- Algorithm `std::lexicographical_compare` over two ranges, with `lt` the element
type's `operator<`. -/
def lexicographical_compare {α : Type} (lt : α → α → Bool) : List α → List α → Bool
  | _, [] => false
  | [], _ :: _ => true
  | a :: as, b :: bs =>
    if lt a b then true
    else if lt b a then false
    else lexicographical_compare lt as bs

/-! ## The container -/

/-- Class `class ReserveProxyObj`. -/
structure ReserveProxyObj where
  capacity_ : Nat
  deriving DecidableEq

/-- The free function `Reserve(capacity_to_reserve)`. -/
def Reserve (capacity_to_reserve : Nat) : ReserveProxyObj :=
  ⟨capacity_to_reserve⟩

/-- The data members of `SimpleVector<Type>`, with their default member
initialisers. -/
structure SimpleVector (α : Type) where
  items_ : List α := []
  size_ : Nat := 0
  capacity_ : Nat := 0
  deriving DecidableEq

namespace SimpleVector

variable {α : Type}

/-- The range `[begin(), end())`: the live elements. -/
def elems (self : SimpleVector α) : List α :=
  self.items_.take self.size_

/-- Member `GetSize()`. -/
def GetSize (self : SimpleVector α) : Nat := self.size_

/-- Member `GetCapacity()`. -/
def GetCapacity (self : SimpleVector α) : Nat := self.capacity_

/-- Member `IsEmpty()`. -/
def IsEmpty (self : SimpleVector α) : Bool := self.size_ == 0

/-- Constructor `SimpleVector() noexcept = default`. -/
def ctor_default : SimpleVector α := {}

/-- Constructor `SimpleVector(size_t size, const Type &value)`. -/
def ctor_size_value (heap : Heap α) (size : Nat) (value : α) : Except Error (SimpleVector α) :=
  let self : SimpleVector α := { size_ := size, capacity_ := size }
  if size ≠ 0 then
    match ArrayPtr.create heap size with
    | .error e => .error e
    | .ok tmp => .ok { self with items_ := stdFill tmp 0 self.size_ value }
  else .ok self

/-- Constructor `explicit SimpleVector(size_t size)`. -/
def ctor_size [Inhabited α] (heap : Heap α) (size : Nat) : Except Error (SimpleVector α) :=
  ctor_size_value heap size default

/-- Constructor `SimpleVector(std::initializer_list<Type> init)`. -/
def ctor_init_list [Inhabited α] (heap : Heap α) (init : List α) :
    Except Error (SimpleVector α) :=
  match ctor_size heap init.length with
  | .error e => .error e
  | .ok self => .ok { self with items_ := stdCopy init 0 init.length self.items_ 0 }

/-- Constructor `SimpleVector(const SimpleVector &other)`. -/
def ctor_copy [Inhabited α] (heap : Heap α) (other : SimpleVector α) :
    Except Error (SimpleVector α) :=
  match ctor_size heap other.capacity_ with
  | .error e => .error e
  | .ok self =>
    .ok { self with
      items_ := stdCopy other.items_ 0 other.size_ self.items_ 0
      size_ := other.size_ }

/-- Constructor `SimpleVector(SimpleVector &&other)`: the new object and `other` after the
call. -/
def ctor_move (other : SimpleVector α) : SimpleVector α × SimpleVector α :=
  ({ items_ := other.items_, size_ := other.size_, capacity_ := other.capacity_ },
   { items_ := [], size_ := 0, capacity_ := 0 })

/-- Member `Reserve(size_t new_capacity)`. -/
def Reserve (heap : Heap α) (self : SimpleVector α) (new_capacity : Nat) :
    SimpleVector α × Except Error Unit :=
  if new_capacity > self.capacity_ then
    match ArrayPtr.create heap new_capacity with
    | .error e => (self, .error e)
    | .ok arr_rmp =>
      let arr_rmp := stdCopy self.items_ 0 self.size_ arr_rmp 0
      ({ self with items_ := arr_rmp, capacity_ := new_capacity }, .ok ())
  else (self, .ok ())

/-- Constructor `SimpleVector(ReserveProxyObj reserve_obj)`. -/
def ctor_reserve (heap : Heap α) (reserve_obj : ReserveProxyObj) :
    Except Error (SimpleVector α) :=
  match Reserve heap {} reserve_obj.capacity_ with
  | (_, .error e) => .error e
  | (self, .ok _) => .ok self

/-- Member `Resize(size_t new_size)`. -/
def Resize [Inhabited α] (heap : Heap α) (self : SimpleVector α) (new_size : Nat) :
    SimpleVector α × Except Error Unit :=
  if new_size ≤ self.size_ then
    ({ self with size_ := new_size }, .ok ())
  else if new_size ≤ self.capacity_ then
    ({ self with
        items_ := stdFill self.items_ self.size_ new_size default
        size_ := new_size }, .ok ())
  else
    let self := { self with capacity_ := max new_size (self.capacity_ * 2) }
    match ArrayPtr.create heap self.capacity_ with
    | .error e => (self, .error e)
    | .ok tmp =>
      let tmp := stdCopy self.items_ 0 self.size_ tmp 0
      let self := { self with items_ := tmp }
      let self := { self with items_ := stdFill self.items_ self.size_ self.capacity_ default }
      ({ self with size_ := new_size }, .ok ())

/-- Member `PushBack(const Type &item)`. -/
def PushBack [Inhabited α] (heap : Heap α) (self : SimpleVector α) (item : α) :
    SimpleVector α × Except Error Unit :=
  if self.size_ < self.capacity_ then
    ({ self with items_ := self.items_.set self.size_ item, size_ := self.size_ + 1 }, .ok ())
  else
    match Resize heap self (self.size_ + 1) with
    | (self, .error e) => (self, .error e)
    | (self, .ok _) => ({ self with items_ := self.items_.set (self.size_ - 1) item }, .ok ())

/-- Member `PushBack(Type &&item)`: the same steps, the item being moved from the
caller's object into the slot. -/
def PushBack_move [Inhabited α] (heap : Heap α) (self : SimpleVector α) (item : α) :
    SimpleVector α × Except Error Unit :=
  if self.size_ < self.capacity_ then
    ({ self with items_ := self.items_.set self.size_ item, size_ := self.size_ + 1 }, .ok ())
  else
    match Resize heap self (self.size_ + 1) with
    | (self, .error e) => (self, .error e)
    | (self, .ok _) => ({ self with items_ := self.items_.set (self.size_ - 1) item }, .ok ())

/-- Member `Insert(ConstIterator pos, const Type &value)`; the iterator returned is
an offset from `begin()`. -/
def Insert [Inhabited α] (heap : Heap α) (self : SimpleVector α) (pos : Nat) (value : α) :
    SimpleVector α × Except Error Nat :=
  let dist := pos
  match Resize heap self (self.size_ + 1) with
  | (self, .error e) => (self, .error e)
  | (self, .ok _) =>
    let pos_tmp := dist
    let self :=
      { self with items_ := stdCopyWithin self.items_ pos_tmp (self.size_ - 1) (pos_tmp + 1) }
    ({ self with items_ := self.items_.set pos_tmp value }, .ok pos_tmp)

/-- Member `Insert(ConstIterator pos, Type &&value)`. -/
def Insert_move [Inhabited α] (mv : α → α) (heap : Heap α) (self : SimpleVector α) (pos : Nat)
    (value : α) : SimpleVector α × Except Error Nat :=
  let dist := pos
  match Resize heap self (self.size_ + 1) with
  | (self, .error e) => (self, .error e)
  | (self, .ok _) =>
    let pos_tmp := dist
    let self :=
      { self with items_ := stdMoveWithin mv self.items_ pos_tmp (self.size_ - 1) (pos_tmp + 1) }
    ({ self with items_ := self.items_.set pos_tmp value }, .ok pos_tmp)

/-- Member `PopBack() noexcept`. -/
def PopBack (self : SimpleVector α) : SimpleVector α :=
  if self.size_ ≠ 0 then { self with size_ := self.size_ - 1 } else self

/-- Member `Erase(ConstIterator pos)`: the object after the call and the iterator
returned. -/
def Erase (mv : α → α) (self : SimpleVector α) (pos : Nat) : SimpleVector α × Nat :=
  let tmp_pos := pos
  let self :=
    { self with items_ := stdMoveWithin mv self.items_ (tmp_pos + 1) self.size_ tmp_pos }
  ({ self with size_ := self.size_ - 1 }, tmp_pos)

/-- Member `swap(SimpleVector &other) noexcept`: both objects after the call. -/
def swap (self other : SimpleVector α) : SimpleVector α × SimpleVector α :=
  ({ items_ := other.items_, size_ := other.size_, capacity_ := other.capacity_ },
   { items_ := self.items_, size_ := self.size_, capacity_ := self.capacity_ })

/-- Operator `operator[](size_t index)`: the slot read, if the buffer has it. -/
def op_index (self : SimpleVector α) (index : Nat) : Option α :=
  self.items_[index]?

/-- Member `At(size_t index)` (both overloads): the object after the call and the
element referred to. -/
def At [Inhabited α] (self : SimpleVector α) (index : Nat) : SimpleVector α × Except Error α :=
  if index ≥ self.size_ then (self, .error .out_of_range)
  else (self, .ok (self.items_.getD index default))

/-- Member `Clear() noexcept`. -/
def Clear (self : SimpleVector α) : SimpleVector α :=
  { self with size_ := 0 }

/-- Operator `operator<`. -/
def op_lt (lt : α → α → Bool) (lhs rhs : SimpleVector α) : Bool :=
  lexicographical_compare lt lhs.elems rhs.elems

/-- Operator `operator>`. -/
def op_gt (lt : α → α → Bool) (lhs rhs : SimpleVector α) : Bool :=
  op_lt lt rhs lhs

/-- Operator `operator!=`. -/
def op_ne (lt : α → α → Bool) (lhs rhs : SimpleVector α) : Bool :=
  op_gt lt lhs rhs || op_lt lt lhs rhs

/-- Operator `operator==`. -/
def op_eq (lt : α → α → Bool) (lhs rhs : SimpleVector α) : Bool :=
  !(op_ne lt lhs rhs)

/-- Operator `operator<=`. -/
def op_le (lt : α → α → Bool) (lhs rhs : SimpleVector α) : Bool :=
  !(op_gt lt lhs rhs)

/-- Operator `operator>=`. -/
def op_ge (lt : α → α → Bool) (lhs rhs : SimpleVector α) : Bool :=
  !(op_lt lt lhs rhs)

/-- Operator `operator=(const SimpleVector &rhs)`: `*this` after the call.  `rhs` is
only read, and read before `*this` is written, so `rhs` may also be `*this`
itself. -/
def assign_copy [Inhabited α] (lt : α → α → Bool) (heap : Heap α) (self rhs : SimpleVector α) :
    SimpleVector α × Except Error Unit :=
  if op_eq lt rhs self then (self, .ok ())
  else
    match ctor_copy heap rhs with
    | .error e => (self, .error e)
    | .ok tmp => ((swap self tmp).1, .ok ())

/-- Operator `operator=(SimpleVector &&rhs)` for an `rhs` that is another object than
`*this`: `*this` and `rhs` after the call. -/
def assign_move (lt : α → α → Bool) (self rhs : SimpleVector α) :
    SimpleVector α × SimpleVector α :=
  if op_eq lt rhs self then (self, rhs)
  else
    ({ items_ := rhs.items_, size_ := rhs.size_, capacity_ := rhs.capacity_ },
     { items_ := [], size_ := 0, capacity_ := 0 })

/-- Operator `operator=(SimpleVector &&rhs)` when `rhs` is `*this` itself.  The
move assignment of `ArrayPtr` is not among the sources: `selfmove` is what it
leaves in a buffer that is moved onto itself.  `std::exchange(rhs.size_, 0)`
writes 0 into the field of the one object, and the assignment then writes the
former value back; likewise for the capacity. -/
def assign_move_self (lt : α → α → Bool) (selfmove : List α → List α)
    (self : SimpleVector α) : SimpleVector α :=
  if op_eq lt self self then self
  else
    let self := { self with items_ := selfmove self.items_ }
    let old_size := self.size_
    let self := { self with size_ := 0 }
    let self := { self with size_ := old_size }
    let old_capacity := self.capacity_
    let self := { self with capacity_ := 0 }
    { self with capacity_ := old_capacity }

/-- The representation invariant: the length is within the capacity, and the
buffer owns exactly `capacity_` slots. -/
def WF (self : SimpleVector α) : Prop :=
  self.size_ ≤ self.capacity_ ∧ self.items_.length = self.capacity_

instance (self : SimpleVector α) : Decidable (WF self) := by
  unfold WF; infer_instance

/-- The invariant the specification states: `0 ≤ length ≤ capacity`. -/
def Inv (self : SimpleVector α) : Prop :=
  0 ≤ self.size_ ∧ self.size_ ≤ self.capacity_

instance (self : SimpleVector α) : Decidable (Inv self) := by
  unfold Inv; infer_instance

/-- A run of `PushBack` calls, stopping at the first one that throws. -/
def PushBack_all [Inhabited α] (heap : Heap α) (self : SimpleVector α) :
    List α → SimpleVector α × Except Error Unit
  | [] => (self, .ok ())
  | item :: items =>
    match PushBack heap self item with
    | (self, .error e) => (self, .error e)
    | (self, .ok _) => PushBack_all heap self items

end SimpleVector

/-- An allocation service that never fails and hands out storage holding `junk`. -/
def heapOf {α : Type} (junk : α) : Heap α := fun _ => some (fun _ => junk)

/-- An allocation service that always fails. -/
def heapFail {α : Type} : Heap α := fun _ => none

/-! ## The container as laid out in memory

The embedding above makes the buffer a part of the container's value, which
presupposes that no two containers share a buffer.  To state that a copy is
independent of its original, the constructors and mutating members that the
statement is about are embedded once more over a free store in which `items_`
is a pointer: the same statements, with every read and write of a slot going
through the pointer it goes through in the source. -/

/-- The free store: for each address, the slots of the buffer allocated there,
if one is. -/
abbrev Store (α : Type) := Nat → Option (List α)

namespace Store

variable {α : Type}

/-- The slots behind a pointer (`none` is `nullptr`). -/
def read (st : Store α) (p : Option Nat) : List α :=
  match p with
  | none => []
  | some a => (st a).getD []

/-- The store after the slots behind a pointer have been overwritten. -/
def write (st : Store α) (p : Option Nat) (buf : List α) : Store α :=
  match p with
  | none => st
  | some a => Function.update st a (some buf)

/-- The store after `delete[]` of a pointer. -/
def release (st : Store α) (p : Option Nat) : Store α :=
  match p with
  | none => st
  | some a => Function.update st a none

end Store

/-- Modelled from the spec: `array_ptr.h` is not among the sources.  As
`ArrayPtr.create`, in the free store: `place` is the address `operator new[]`
picks, and the result is the store with the new buffer and the pointer to
it. -/
def ArrayPtr.create_at {α : Type} (heap : Heap α) (place : Store α → Nat) (st : Store α)
    (size : Nat) : Except Error (Store α × Option Nat) :=
  if size = 0 then .ok (st, none)
  else
    match heap size with
    | none => .error .bad_alloc
    | some init =>
      .ok (Function.update st (place st) (some ((List.range size).map init)), some (place st))

/-- The data members of `SimpleVector<Type>` with `items_` as the raw pointer
it holds. -/
structure Layout where
  items_ : Option Nat := none
  size_ : Nat := 0
  capacity_ : Nat := 0
  deriving DecidableEq

namespace Layout

variable {α : Type}

/-- The container an object in the store stands for. -/
def load (st : Store α) (self : Layout) : SimpleVector α :=
  { items_ := st.read self.items_, size_ := self.size_, capacity_ := self.capacity_ }

/-- Constructor `SimpleVector(size_t size, const Type &value)`, in the store. -/
def ctor_size_value (heap : Heap α) (place : Store α → Nat) (st : Store α) (size : Nat)
    (value : α) : Except Error (Store α × Layout) :=
  let self : Layout := { size_ := size, capacity_ := size }
  if size ≠ 0 then
    match ArrayPtr.create_at heap place st size with
    | .error e => .error e
    | .ok (st, tmp) =>
      let self := { self with items_ := tmp }
      .ok (st.write self.items_ (stdFill (st.read self.items_) 0 self.size_ value), self)
  else .ok (st, self)

/-- Constructor `SimpleVector(const SimpleVector &other)`, in the store. -/
def ctor_copy [Inhabited α] (heap : Heap α) (place : Store α → Nat) (st : Store α)
    (other : Layout) : Except Error (Store α × Layout) :=
  match ctor_size_value heap place st other.capacity_ default with
  | .error e => .error e
  | .ok (st, self) =>
    .ok (st.write self.items_
          (stdCopy (st.read other.items_) 0 other.size_ (st.read self.items_) 0),
         { self with size_ := other.size_ })

/-- Member `Resize(size_t new_size)`, in the store: the old buffer is released
when `tmp`, which holds it after the swap, goes out of scope. -/
def Resize [Inhabited α] (heap : Heap α) (place : Store α → Nat) (st : Store α)
    (self : Layout) (new_size : Nat) : Store α × Layout × Except Error Unit :=
  if new_size ≤ self.size_ then
    (st, { self with size_ := new_size }, .ok ())
  else if new_size ≤ self.capacity_ then
    (st.write self.items_ (stdFill (st.read self.items_) self.size_ new_size default),
     { self with size_ := new_size }, .ok ())
  else
    let self := { self with capacity_ := max new_size (self.capacity_ * 2) }
    match ArrayPtr.create_at heap place st self.capacity_ with
    | .error e => (st, self, .error e)
    | .ok (st, tmp) =>
      let st := st.write tmp (stdCopy (st.read self.items_) 0 self.size_ (st.read tmp) 0)
      let old := self.items_
      let self := { self with items_ := tmp }
      let st :=
        st.write self.items_ (stdFill (st.read self.items_) self.size_ self.capacity_ default)
      (st.release old, { self with size_ := new_size }, .ok ())

/-- Member `PushBack(const Type &item)`, in the store. -/
def PushBack [Inhabited α] (heap : Heap α) (place : Store α → Nat) (st : Store α)
    (self : Layout) (item : α) : Store α × Layout × Except Error Unit :=
  if self.size_ < self.capacity_ then
    (st.write self.items_ ((st.read self.items_).set self.size_ item),
     { self with size_ := self.size_ + 1 }, .ok ())
  else
    match Resize heap place st self (self.size_ + 1) with
    | (st, self, .error e) => (st, self, .error e)
    | (st, self, .ok _) =>
      (st.write self.items_ ((st.read self.items_).set (self.size_ - 1) item), self, .ok ())

/-- Member `Insert(ConstIterator pos, const Type &value)`, in the store. -/
def Insert [Inhabited α] (heap : Heap α) (place : Store α → Nat) (st : Store α)
    (self : Layout) (pos : Nat) (value : α) : Store α × Layout × Except Error Nat :=
  let dist := pos
  match Resize heap place st self (self.size_ + 1) with
  | (st, self, .error e) => (st, self, .error e)
  | (st, self, .ok _) =>
    let pos_tmp := dist
    let st := st.write self.items_
      (stdCopyWithin (st.read self.items_) pos_tmp (self.size_ - 1) (pos_tmp + 1))
    (st.write self.items_ ((st.read self.items_).set pos_tmp value), self, .ok pos_tmp)

/-- Member `Insert(ConstIterator pos, Type &&value)`, in the store. -/
def Insert_move [Inhabited α] (mv : α → α) (heap : Heap α) (place : Store α → Nat)
    (st : Store α) (self : Layout) (pos : Nat) (value : α) :
    Store α × Layout × Except Error Nat :=
  let dist := pos
  match Resize heap place st self (self.size_ + 1) with
  | (st, self, .error e) => (st, self, .error e)
  | (st, self, .ok _) =>
    let pos_tmp := dist
    let st := st.write self.items_
      (stdMoveWithin mv (st.read self.items_) pos_tmp (self.size_ - 1) (pos_tmp + 1))
    (st.write self.items_ ((st.read self.items_).set pos_tmp value), self, .ok pos_tmp)

/-- Member `Erase(ConstIterator pos)`, in the store. -/
def Erase (mv : α → α) (st : Store α) (self : Layout) (pos : Nat) :
    Store α × Layout × Nat :=
  let tmp_pos := pos
  let st := st.write self.items_
    (stdMoveWithin mv (st.read self.items_) (tmp_pos + 1) self.size_ tmp_pos)
  (st, { self with size_ := self.size_ - 1 }, tmp_pos)

/-- An assignment `v[index] = value` through the reference `operator[]`
returns, in the store. -/
def assign_index (st : Store α) (self : Layout) (index : Nat) (value : α) :
    Store α × Layout :=
  (st.write self.items_ ((st.read self.items_).set index value), self)

end Layout

/-- A mutating call on a container. -/
inductive Mutation (α : Type) where
  | pushBack (item : α)
  | insert (pos : Nat) (value : α)
  | insertMove (pos : Nat) (value : α)
  | erase (pos : Nat)
  | resize (new_size : Nat)
  | assignIndex (index : Nat) (value : α)

namespace Layout

variable {α : Type}

/-- The store and the object after one mutating call on the object, whether
the call returns or throws. -/
def mutate [Inhabited α] (mv : α → α) (heap : Heap α) (place : Store α → Nat)
    (st : Store α) (self : Layout) : Mutation α → Store α × Layout
  | .pushBack item => ((PushBack heap place st self item).1, (PushBack heap place st self item).2.1)
  | .insert pos value =>
    ((Insert heap place st self pos value).1, (Insert heap place st self pos value).2.1)
  | .insertMove pos value =>
    ((Insert_move mv heap place st self pos value).1,
     (Insert_move mv heap place st self pos value).2.1)
  | .erase pos => ((Erase mv st self pos).1, (Erase mv st self pos).2.1)
  | .resize new_size => ((Resize heap place st self new_size).1,
      (Resize heap place st self new_size).2.1)
  | .assignIndex index value => assign_index st self index value

/-- The store and the object after a run of mutating calls on the object. -/
def mutate_all [Inhabited α] (mv : α → α) (heap : Heap α) (place : Store α → Nat)
    (st : Store α) (self : Layout) : List (Mutation α) → Store α × Layout
  | [] => (st, self)
  | m :: ms =>
    mutate_all mv heap place (mutate mv heap place st self m).1
      (mutate mv heap place st self m).2 ms

end Layout

/-- An `operator new[]` that hands out the lowest of the addresses 1, 2, 3 at
which no buffer is allocated. -/
def placeLowest {α : Type} (st : Store α) : Nat :=
  if (st 1).isNone then 1 else if (st 2).isNone then 2 else 3

/-- A store with one buffer, of four slots, at address 1. -/
def storeOne : Store Nat := fun a => if a = 1 then some [1, 2, 3, 0] else none

/-- The element type's `operator<` is a strict partial order: irreflexive and
transitive. -/
def StrictPartial {α : Type} (lt : α → α → Bool) : Prop :=
  (∀ a, lt a a = false) ∧ (∀ a b c, lt a b = true → lt b c = true → lt a c = true)

/-- The element type's `operator<` is a strict total order: a strict partial
order in which any two distinct values are comparable. -/
def StrictTotal {α : Type} (lt : α → α → Bool) : Prop :=
  StrictPartial lt ∧ (∀ a b, a ≠ b → lt a b = true ∨ lt b a = true)

/-- The built-in `<` of an unsigned integer type. -/
def natLess (a b : Nat) : Bool := decide (a < b)

/-- The `<` of a type with one NaN-like value (`none`): the other values are
ordered as numbers, and the NaN-like value is neither less nor greater than
anything. -/
def nanLess : Option Nat → Option Nat → Bool
  | some a, some b => decide (a < b)
  | _, _ => false

/-! ## Facts about the element-wise algorithms -/

theorem length_fillN {α : Type} (value : α) (n first : Nat) (buf : List α) :
    (fillN value n first buf).length = buf.length := by
  induction n generalizing first buf with
  | zero => rfl
  | succ n ih => simp [fillN, ih]

theorem getElem?_fillN {α : Type} (value : α) (n first : Nat) (buf : List α) (i : Nat) :
    (fillN value n first buf)[i]? =
      if first ≤ i ∧ i < first + n ∧ i < buf.length then some value else buf[i]? := by
  induction n generalizing first buf with
  | zero => rw [if_neg (by omega)]; rfl
  | succ n ih =>
    simp only [fillN, ih, List.length_set, List.getElem?_set]
    by_cases h1 : first = i
    · subst h1
      by_cases h2 : first < buf.length
      · simp [h2]
      · simp [h2]; omega
    · by_cases h3 : first + 1 ≤ i
      · have h4 : first ≤ i := by omega
        have h5 : (i < first + 1 + n) = (i < first + (n + 1)) := by
          apply propext; omega
        simp [h1, h3, h4, h5]
      · have h4 : ¬ first ≤ i := by omega
        simp [h1, h3, h4]

theorem length_copyN {α : Type} (src : List α) (n first d_first : Nat) (dst : List α) :
    (copyN src n first d_first dst).length = dst.length := by
  induction n generalizing first d_first dst with
  | zero => rfl
  | succ n ih =>
    simp only [copyN]
    split
    · simp [ih]
    · rfl

theorem getElem?_copyN {α : Type} (src : List α) (n first d_first : Nat) (dst : List α)
    (h : first + n ≤ src.length) (i : Nat) :
    (copyN src n first d_first dst)[i]? =
      if d_first ≤ i ∧ i < d_first + n ∧ i < dst.length then src[first + (i - d_first)]?
      else dst[i]? := by
  induction n generalizing first d_first dst with
  | zero => rw [if_neg (by omega)]; rfl
  | succ n ih =>
    have hf : first < src.length := by omega
    simp only [copyN, List.getElem?_eq_getElem hf]
    rw [ih (first + 1) (d_first + 1) _ (by omega)]
    simp only [List.length_set, List.getElem?_set]
    by_cases h1 : d_first = i
    · subst h1
      by_cases h2 : d_first < dst.length
      · simp [h2, List.getElem?_eq_getElem hf]
      · simp [h2]; omega
    · by_cases h3 : d_first + 1 ≤ i
      · have h4 : d_first ≤ i := by omega
        have h5 : (i < d_first + 1 + n) = (i < d_first + (n + 1)) := by
          apply propext; omega
        have h6 : first + 1 + (i - (d_first + 1)) = first + (i - d_first) := by omega
        simp [h1, h3, h4, h5, h6]
      · have h4 : ¬ d_first ≤ i := by omega
        simp [h1, h3, h4]

theorem length_copyWithinN {α : Type} (n first d_first : Nat) (buf : List α) :
    (copyWithinN n first d_first buf).length = buf.length := by
  induction n generalizing first d_first buf with
  | zero => rfl
  | succ n ih =>
    simp only [copyWithinN]
    split
    · simp [ih]
    · rfl

theorem length_moveWithinN {α : Type} (mv : α → α) (n first d_first : Nat) (buf : List α) :
    (moveWithinN mv n first d_first buf).length = buf.length := by
  induction n generalizing first d_first buf with
  | zero => rfl
  | succ n ih =>
    simp only [moveWithinN]
    split
    · simp [ih]
    · rfl

/-- Moving `k` elements one slot to the left, onto slot `p`: below `p + k` the
buffer holds what it held before, without the element of slot `p`. -/
theorem getElem?_moveWithinN_left {α : Type} (mv : α → α) (k p : Nat) (buf : List α)
    (h : p + k < buf.length) (i : Nat) (hi : i < p + k) :
    (moveWithinN mv k (p + 1) p buf)[i]? = if i < p then buf[i]? else buf[i + 1]? := by
  induction k generalizing p buf with
  | zero => rw [if_pos (by omega)]; rfl
  | succ k ih =>
    have hf : p + 1 < buf.length := by omega
    simp only [moveWithinN, List.getElem?_eq_getElem hf]
    rw [ih (p + 1) _ (by simp; omega) (by omega)]
    simp only [List.getElem?_set, List.length_set]
    by_cases h1 : i < p
    · have h2 : i < p + 1 := by omega
      have h3 : ¬ p + 1 = i := by omega
      have h4 : ¬ p = i := by omega
      simp [h1, h2, h3, h4]
    · by_cases h2 : i = p
      · subst h2
        have h5 : i < buf.length := by omega
        simp [h5, List.getElem?_eq_getElem hf]
      · have h3 : ¬ i < p + 1 := by omega
        have h4 : ¬ p + 1 = i + 1 := by omega
        have h5 : ¬ p = i + 1 := by omega
        simp [h1, h3, h4, h5]

theorem stdFill_eq {α : Type} (buf : List α) (first last : Nat) (value : α)
    (h1 : first ≤ last) (h2 : last ≤ buf.length) :
    stdFill buf first last value =
      buf.take first ++ List.replicate (last - first) value ++ buf.drop last := by
  apply List.ext_getElem?
  intro i
  simp only [stdFill, getElem?_fillN, List.getElem?_append, List.getElem?_take,
    List.getElem?_drop, List.getElem?_replicate, List.length_append, List.length_take,
    List.length_replicate]
  have h3 : min first buf.length = first := by omega
  rw [h3]
  by_cases c1 : i < first
  · have c2 : ¬ first ≤ i := by omega
    have c3 : i < first + (last - first) := by omega
    simp [c1, c2, c3]
  · by_cases c2 : i < last
    · have c3 : first ≤ i := by omega
      have c4 : i < first + (last - first) := by omega
      have c5 : i < buf.length := by omega
      have c6 : i - first < last - first := by omega
      simp [c1, c3, c4, c5, c6]
    · have c3 : ¬ i < first + (last - first) := by omega
      have c4 : last + (i - (first + (last - first))) = i := by omega
      simp [c1, c3, c4]

theorem stdCopy_eq {α : Type} (src dst : List α) (n : Nat)
    (h1 : n ≤ src.length) (h2 : n ≤ dst.length) :
    stdCopy src 0 n dst 0 = src.take n ++ dst.drop n := by
  apply List.ext_getElem?
  intro i
  simp only [stdCopy, Nat.sub_zero]
  rw [getElem?_copyN src n 0 0 dst (by omega) i]
  simp only [List.getElem?_append, List.getElem?_take, List.getElem?_drop, List.length_take]
  have h3 : min n src.length = n := by omega
  rw [h3]
  by_cases c1 : i < n
  · have c2 : i < dst.length := by omega
    simp [c1, c2]
  · have c2 : n + (i - n) = i := by omega
    simp [c1, c2]

theorem ArrayPtr.create_of_some {α : Type} (heap : Heap α) (size : Nat) (init : Nat → α)
    (h0 : size ≠ 0) (h : heap size = some init) :
    ArrayPtr.create heap size = .ok ((List.range size).map init) := by
  simp [ArrayPtr.create, h0, h]

theorem ArrayPtr.create_of_none {α : Type} (heap : Heap α) (size : Nat)
    (h0 : size ≠ 0) (h : heap size = none) :
    ArrayPtr.create heap size = .error .bad_alloc := by
  simp [ArrayPtr.create, h0, h]

theorem set_append_cons {α : Type} (l r : List α) (x y : α) (n : Nat) (h : l.length = n) :
    (l ++ x :: r).set n y = l ++ y :: r := by
  subst h
  induction l with
  | nil => rfl
  | cons a l ih => simp [ih]

theorem take_succ_set {α : Type} (l : List α) (n : Nat) (a : α) (h : n < l.length) :
    (l.set n a).take (n + 1) = l.take n ++ [a] := by
  induction l generalizing n with
  | nil => simp at h
  | cons b l ih =>
    cases n with
    | zero => simp
    | succ n =>
      simp only [List.length_cons, Nat.add_lt_add_iff_right] at h
      simp [ih n h]

theorem ArrayPtr.create_error {α : Type} (heap : Heap α) (size : Nat) (e : Error)
    (h : ArrayPtr.create heap size = .error e) : e = .bad_alloc := by
  unfold ArrayPtr.create at h
  split at h
  · simp at h
  · split at h
    · simp at h; exact h.symm
    · simp at h

namespace SimpleVector

variable {α : Type}

/-- The growth branch of `Resize` in closed form, when the allocation succeeds. -/
theorem Resize_grow [Inhabited α] (heap : Heap α) (self : SimpleVector α) (new_size : Nat)
    (hwf : WF self) (hgt : self.capacity_ < new_size) (init : Nat → α)
    (halloc : heap (max new_size (self.capacity_ * 2)) = some init) :
    Resize heap self new_size =
      ({ items_ := self.items_.take self.size_ ++
            List.replicate (max new_size (self.capacity_ * 2) - self.size_) default
         size_ := new_size
         capacity_ := max new_size (self.capacity_ * 2) }, .ok ()) := by
  obtain ⟨h1, h2⟩ := hwf
  have c1 : ¬ new_size ≤ self.size_ := by omega
  have c2 : ¬ new_size ≤ self.capacity_ := by omega
  have c3 : max new_size (self.capacity_ * 2) ≠ 0 := by omega
  simp only [Resize, c1, c2, if_false, ArrayPtr.create_of_some heap _ init c3 halloc]
  rw [stdCopy_eq _ _ _ (by omega) (by simp; omega)]
  rw [stdFill_eq _ _ _ _ (by omega) (by simp; omega)]
  have e1 : (List.take self.size_ self.items_).length = self.size_ := by simp; omega
  simp only [List.take_left' e1]
  rw [List.drop_eq_nil_of_le (by simp; omega)]
  simp

/-- The truncating branch of `Resize`. -/
theorem Resize_shrink [Inhabited α] (heap : Heap α) (self : SimpleVector α) (new_size : Nat)
    (hle : new_size ≤ self.size_) :
    Resize heap self new_size = ({ self with size_ := new_size }, .ok ()) := by
  simp [Resize, hle]

/-- The branch of `Resize` that exposes slots of the present buffer. -/
theorem Resize_within [Inhabited α] (heap : Heap α) (self : SimpleVector α) (new_size : Nat)
    (hwf : WF self) (hlt : self.size_ < new_size) (hle : new_size ≤ self.capacity_) :
    Resize heap self new_size =
      ({ items_ := self.items_.take self.size_ ++
            List.replicate (new_size - self.size_) default ++ self.items_.drop new_size
         size_ := new_size
         capacity_ := self.capacity_ }, .ok ()) := by
  obtain ⟨h1, h2⟩ := hwf
  have c1 : ¬ new_size ≤ self.size_ := by omega
  simp only [Resize, c1, hle, if_true, if_false]
  rw [stdFill_eq _ _ _ _ (by omega) (by omega)]

/-- The growth branch of `Resize` when the allocation fails: the exception
leaves the object with its capacity field already raised. -/
theorem Resize_fail [Inhabited α] (heap : Heap α) (self : SimpleVector α) (new_size : Nat)
    (hsz : self.size_ < new_size) (hgt : self.capacity_ < new_size)
    (halloc : heap (max new_size (self.capacity_ * 2)) = none) :
    Resize heap self new_size =
      ({ self with capacity_ := max new_size (self.capacity_ * 2) }, .error .bad_alloc) := by
  have c1 : ¬ new_size ≤ self.size_ := by omega
  have c2 : ¬ new_size ≤ self.capacity_ := by omega
  have c3 : max new_size (self.capacity_ * 2) ≠ 0 := by omega
  simp only [Resize, c1, c2, if_false, ArrayPtr.create_of_none heap _ c3 halloc]

/-- Member `Resize` keeps the length within the capacity, whether it returns or throws. -/
theorem Resize_size_le_capacity [Inhabited α] (heap : Heap α) (self : SimpleVector α)
    (new_size : Nat) (h : self.size_ ≤ self.capacity_) :
    (Resize heap self new_size).1.size_ ≤ (Resize heap self new_size).1.capacity_ := by
  unfold Resize
  by_cases c1 : new_size ≤ self.size_
  · simp only [c1, if_true]; omega
  · by_cases c2 : new_size ≤ self.capacity_
    · simp only [c1, c2, if_true, if_false]
    · simp only [c1, c2, if_false]
      split
      · simp only; omega
      · simp only; omega

/-- Member `Resize` throws nothing but `std::bad_alloc`. -/
theorem Resize_error [Inhabited α] (heap : Heap α) (self : SimpleVector α) (new_size : Nat)
    (e : Error) (h : (Resize heap self new_size).2 = .error e) : e = .bad_alloc := by
  unfold Resize at h
  by_cases c1 : new_size ≤ self.size_
  · simp [c1] at h
  · by_cases c2 : new_size ≤ self.capacity_
    · simp [c1, c2] at h
    · simp only [c1, c2, if_false] at h
      split at h
      · rename_i e1 heq
        have h1 := ArrayPtr.create_error heap _ e1 heq
        simp at h
        rw [← h]; exact h1
      · simp at h

/-- Member `PushBack` into a free slot. -/
theorem PushBack_room [Inhabited α] (heap : Heap α) (self : SimpleVector α) (item : α)
    (hlt : self.size_ < self.capacity_) :
    PushBack heap self item =
      ({ self with items_ := self.items_.set self.size_ item, size_ := self.size_ + 1 },
        .ok ()) := by
  simp [PushBack, hlt]

/-- Member `PushBack` into a full container, in closed form, when the allocation
succeeds. -/
theorem PushBack_grow [Inhabited α] (heap : Heap α) (self : SimpleVector α) (item : α)
    (hwf : WF self) (hfull : ¬ self.size_ < self.capacity_) (init : Nat → α)
    (halloc : heap (max (self.size_ + 1) (self.capacity_ * 2)) = some init) :
    PushBack heap self item =
      ({ items_ := self.items_.take self.size_ ++ item ::
            List.replicate (max (self.size_ + 1) (self.capacity_ * 2) - self.size_ - 1) default
         size_ := self.size_ + 1
         capacity_ := max (self.size_ + 1) (self.capacity_ * 2) }, .ok ()) := by
  have h1 := hwf.1
  have h2 := hwf.2
  simp only [PushBack, hfull, if_false,
    Resize_grow heap self (self.size_ + 1) hwf (by omega) init halloc]
  have e1 : (List.take self.size_ self.items_).length = self.size_ := by simp; omega
  have e2 : max (self.size_ + 1) (self.capacity_ * 2) - self.size_ =
      (max (self.size_ + 1) (self.capacity_ * 2) - self.size_ - 1) + 1 := by omega
  simp only [Nat.add_sub_cancel]
  rw [e2, List.replicate_succ, set_append_cons _ _ _ _ _ e1]
  simp only [Nat.add_sub_cancel]

/-- What one `PushBack` does to a well-formed container when the allocation it
may need succeeds. -/
theorem PushBack_ok [Inhabited α] (heap : Heap α) (self : SimpleVector α) (item : α)
    (hwf : WF self)
    (halloc : ¬ self.size_ < self.capacity_ →
      heap (max (self.size_ + 1) (self.capacity_ * 2)) ≠ none) :
    (PushBack heap self item).2 = .ok () ∧
    WF (PushBack heap self item).1 ∧
    (PushBack heap self item).1.size_ = self.size_ + 1 ∧
    (PushBack heap self item).1.elems = self.elems ++ [item] ∧
    (self.size_ < self.capacity_ → (PushBack heap self item).1.capacity_ = self.capacity_) ∧
    (¬ self.size_ < self.capacity_ →
      (PushBack heap self item).1.capacity_ = max (self.size_ + 1) (self.capacity_ * 2)) := by
  have h1 := hwf.1
  have h2 := hwf.2
  by_cases hlt : self.size_ < self.capacity_
  · rw [PushBack_room heap self item hlt]
    refine ⟨rfl, ?_, rfl, ?_, fun _ => rfl, fun h => absurd hlt h⟩
    · constructor
      · simp only; omega
      · simp only [List.length_set]; exact h2
    · simp only [elems]
      rw [take_succ_set _ _ _ (by omega)]
  · obtain ⟨init, hinit⟩ := Option.ne_none_iff_exists'.mp (halloc hlt)
    rw [PushBack_grow heap self item hwf hlt init hinit]
    refine ⟨rfl, ?_, rfl, ?_, fun h => absurd h hlt, fun _ => rfl⟩
    · constructor
      · simp only; omega
      · simp; omega
    · have e1 : (List.take self.size_ self.items_).length = self.size_ := by simp; omega
      simp only [elems]
      rw [show self.items_.take self.size_ ++ item :: List.replicate
            (max (self.size_ + 1) (self.capacity_ * 2) - self.size_ - 1) default =
          (self.items_.take self.size_ ++ [item]) ++ List.replicate
            (max (self.size_ + 1) (self.capacity_ * 2) - self.size_ - 1) default by simp]
      rw [List.take_left' (by simp; omega)]

/-- A run of `PushBack` calls that all return continues from the object they
leave. -/
theorem PushBack_all_append [Inhabited α] (heap : Heap α) (self : SimpleVector α)
    (xs ys : List α) (h : (PushBack_all heap self xs).2 = .ok ()) :
    PushBack_all heap self (xs ++ ys) = PushBack_all heap (PushBack_all heap self xs).1 ys := by
  induction xs generalizing self with
  | nil => rfl
  | cons x xs ih =>
    simp only [PushBack_all, List.cons_append] at h ⊢
    split
    · rename_i s e heq
      rw [heq] at h
      simp at h
    · rename_i s u heq
      rw [heq] at h
      exact ih s h

/-- The last call of a run of `PushBack` calls is a `PushBack` on the object
the earlier calls leave. -/
theorem PushBack_all_concat [Inhabited α] (heap : Heap α) (self : SimpleVector α)
    (xs : List α) (x : α) (h : (PushBack_all heap self xs).2 = .ok ()) :
    PushBack_all heap self (xs ++ [x]) = PushBack heap (PushBack_all heap self xs).1 x := by
  rw [PushBack_all_append heap self xs [x] h]
  simp only [PushBack_all]
  split
  · rename_i s e heq; rw [heq]
  · rename_i s u heq; rw [heq]

/-- With an allocation service that never fails, a run of `PushBack` calls on
a well-formed container returns and appends the items. -/
theorem PushBack_all_ok [Inhabited α] (heap : Heap α) (hheap : ∀ n, heap n ≠ none)
    (self : SimpleVector α) (hwf : WF self) (vs : List α) :
    (PushBack_all heap self vs).2 = .ok () ∧
    WF (PushBack_all heap self vs).1 ∧
    (PushBack_all heap self vs).1.size_ = self.size_ + vs.length ∧
    (PushBack_all heap self vs).1.elems = self.elems ++ vs := by
  induction vs generalizing self with
  | nil => simp [PushBack_all, hwf]
  | cons v vs ih =>
    obtain ⟨p1, p2, p3, p4, -, -⟩ := PushBack_ok heap self v hwf (fun _ => hheap _)
    simp only [PushBack_all]
    split
    · rename_i s e heq
      rw [heq] at p1
      simp at p1
    · rename_i s u heq
      rw [heq] at p2 p3 p4
      simp only at p2 p3 p4
      obtain ⟨q1, q2, q3, q4⟩ := ih s p2
      refine ⟨q1, q2, ?_, ?_⟩
      · rw [q3, p3, List.length_cons]; omega
      · rw [q4, p4]; simp

theorem WF_ctor_default : WF (ctor_default : SimpleVector α) := by
  simp [WF, ctor_default]

theorem elems_ctor_default : (ctor_default : SimpleVector α).elems = [] := by
  simp [elems, ctor_default]

/-- Member `Reserve` of no more than the present capacity. -/
theorem Reserve_noop (heap : Heap α) (self : SimpleVector α) (new_capacity : Nat)
    (hle : new_capacity ≤ self.capacity_) :
    Reserve heap self new_capacity = (self, .ok ()) := by
  have c : ¬ new_capacity > self.capacity_ := by omega
  simp [Reserve, c]

/-- Member `Reserve` of more than the present capacity, in closed form, when the
allocation succeeds: the slots past the live elements hold whatever the new
storage held. -/
theorem Reserve_grow (heap : Heap α) (self : SimpleVector α) (new_capacity : Nat)
    (hwf : WF self) (hgt : self.capacity_ < new_capacity) (init : Nat → α)
    (halloc : heap new_capacity = some init) :
    Reserve heap self new_capacity =
      ({ items_ := self.items_.take self.size_ ++
            ((List.range new_capacity).map init).drop self.size_
         size_ := self.size_
         capacity_ := new_capacity }, .ok ()) := by
  obtain ⟨h1, h2⟩ := hwf
  have c : new_capacity > self.capacity_ := hgt
  have c3 : new_capacity ≠ 0 := by omega
  simp only [Reserve, c, if_true, ArrayPtr.create_of_some heap _ init c3 halloc]
  rw [stdCopy_eq _ _ _ (by omega) (by simp; omega)]

/-- Member `Reserve` when the allocation fails: the object is untouched. -/
theorem Reserve_fail (heap : Heap α) (self : SimpleVector α) (new_capacity : Nat)
    (hgt : self.capacity_ < new_capacity) (halloc : heap new_capacity = none) :
    Reserve heap self new_capacity = (self, .error .bad_alloc) := by
  have c : new_capacity > self.capacity_ := hgt
  have c3 : new_capacity ≠ 0 := by omega
  simp only [Reserve, c, if_true, ArrayPtr.create_of_none heap _ c3 halloc]

/-- Member `Reserve` throws nothing but `std::bad_alloc`. -/
theorem Reserve_error (heap : Heap α) (self : SimpleVector α) (new_capacity : Nat)
    (e : Error) (h : (Reserve heap self new_capacity).2 = .error e) : e = .bad_alloc := by
  unfold Reserve at h
  split at h
  · split at h
    · rename_i e1 heq
      have h1 := ArrayPtr.create_error heap _ e1 heq
      simp at h
      rw [← h]; exact h1
    · simp at h
  · simp at h

/-- Member `Reserve` keeps the length within the capacity, whether it returns or throws. -/
theorem Reserve_size_le_capacity (heap : Heap α) (self : SimpleVector α)
    (new_capacity : Nat) (h : self.size_ ≤ self.capacity_) :
    (Reserve heap self new_capacity).1.size_ ≤ (Reserve heap self new_capacity).1.capacity_ := by
  unfold Reserve
  split
  · split
    · exact h
    · simp only; omega
  · exact h

/-- The live elements after `Erase`: those before, without the one at `pos`. -/
theorem Erase_elems (mv : α → α) (self : SimpleVector α) (pos : Nat)
    (hwf : WF self) (hpos : pos < self.size_) :
    (Erase mv self pos).1.elems = self.elems.take pos ++ self.elems.drop (pos + 1) := by
  obtain ⟨h1, h2⟩ := hwf
  apply List.ext_getElem?
  intro i
  simp only [Erase, elems, stdMoveWithin, List.getElem?_take, List.getElem?_append,
    List.getElem?_drop, List.length_take]
  have e1 : min pos (min self.size_ self.items_.length) = pos := by omega
  rw [e1]
  by_cases c1 : i < self.size_ - 1
  · have e2 : self.size_ - (pos + 1) = self.size_ - 1 - pos := by omega
    rw [if_pos c1, e2,
      getElem?_moveWithinN_left mv (self.size_ - 1 - pos) pos self.items_ (by omega) i (by omega)]
    by_cases c2 : i < pos
    · have c3 : i < self.size_ := by omega
      simp [c2, c3]
    · have c3 : pos + 1 + (i - pos) = i + 1 := by omega
      have c4 : i + 1 < self.size_ := by omega
      simp [c2, c3, c4]
  · have c2 : ¬ i < pos := by omega
    have c3 : ¬ pos + 1 + (i - pos) < self.size_ := by omega
    simp [c1, c2, c3]

/-- Member `Erase` keeps a well-formed container well-formed. -/
theorem Erase_WF (mv : α → α) (self : SimpleVector α) (pos : Nat) (hwf : WF self) :
    WF (Erase mv self pos).1 := by
  obtain ⟨h1, h2⟩ := hwf
  constructor
  · simp only [Erase]; omega
  · simp only [Erase, stdMoveWithin, length_moveWithinN]; exact h2

end SimpleVector

namespace SimpleVector

variable {α : Type}

/-- Member `PushBack` throws nothing but `std::bad_alloc`. -/
theorem PushBack_error [Inhabited α] (heap : Heap α) (self : SimpleVector α) (item : α)
    (e : Error) (h : (PushBack heap self item).2 = .error e) : e = .bad_alloc := by
  unfold PushBack at h
  split at h
  · simp at h
  · split at h
    · rename_i s e1 heq
      simp only [Except.error.injEq] at h
      rw [← h]
      exact Resize_error heap self _ e1 (by rw [heq])
    · simp at h

/-- Member `PushBack` keeps the length within the capacity, whether it returns or throws. -/
theorem PushBack_size_le_capacity [Inhabited α] (heap : Heap α) (self : SimpleVector α)
    (item : α) (h : self.size_ ≤ self.capacity_) :
    (PushBack heap self item).1.size_ ≤ (PushBack heap self item).1.capacity_ := by
  have hr := Resize_size_le_capacity heap self (self.size_ + 1) h
  unfold PushBack
  split
  · simp only; omega
  · split
    · rename_i s e1 heq
      rw [heq] at hr
      exact hr
    · rename_i s u heq
      rw [heq] at hr
      exact hr

/-- Both overloads of `PushBack` do the same to the container. -/
theorem PushBack_move_eq [Inhabited α] (heap : Heap α) (self : SimpleVector α) (item : α) :
    PushBack_move heap self item = PushBack heap self item := rfl

/-- Member `Insert` throws nothing but `std::bad_alloc`. -/
theorem Insert_error [Inhabited α] (heap : Heap α) (self : SimpleVector α) (pos : Nat)
    (value : α) (e : Error) (h : (Insert heap self pos value).2 = .error e) :
    e = .bad_alloc := by
  unfold Insert at h
  simp only at h
  split at h
  · rename_i s e1 heq
    simp only [Except.error.injEq] at h
    rw [← h]
    exact Resize_error heap self _ e1 (by rw [heq])
  · simp at h

/-- Member `Insert` (moving overload) throws nothing but `std::bad_alloc`. -/
theorem Insert_move_error [Inhabited α] (mv : α → α) (heap : Heap α) (self : SimpleVector α)
    (pos : Nat) (value : α) (e : Error)
    (h : (Insert_move mv heap self pos value).2 = .error e) : e = .bad_alloc := by
  unfold Insert_move at h
  simp only at h
  split at h
  · rename_i s e1 heq
    simp only [Except.error.injEq] at h
    rw [← h]
    exact Resize_error heap self _ e1 (by rw [heq])
  · simp at h

/-- The length and capacity `Insert` leaves are those its `Resize` call leaves. -/
theorem Insert_size_capacity [Inhabited α] (heap : Heap α) (self : SimpleVector α) (pos : Nat)
    (value : α) :
    (Insert heap self pos value).1.size_ = (Resize heap self (self.size_ + 1)).1.size_ ∧
    (Insert heap self pos value).1.capacity_
      = (Resize heap self (self.size_ + 1)).1.capacity_ := by
  unfold Insert
  simp only
  split
  · rename_i s e1 heq
    rw [heq]
    exact ⟨rfl, rfl⟩
  · rename_i s u heq
    rw [heq]
    exact ⟨rfl, rfl⟩

/-- The length and capacity the moving `Insert` leaves are those its `Resize`
call leaves. -/
theorem Insert_move_size_capacity [Inhabited α] (mv : α → α) (heap : Heap α)
    (self : SimpleVector α) (pos : Nat) (value : α) :
    (Insert_move mv heap self pos value).1.size_
      = (Resize heap self (self.size_ + 1)).1.size_ ∧
    (Insert_move mv heap self pos value).1.capacity_
      = (Resize heap self (self.size_ + 1)).1.capacity_ := by
  unfold Insert_move
  simp only
  split
  · rename_i s e1 heq
    rw [heq]
    exact ⟨rfl, rfl⟩
  · rename_i s u heq
    rw [heq]
    exact ⟨rfl, rfl⟩

/-- Constructor `SimpleVector(size, value)` either throws `std::bad_alloc` or builds a
container of length and capacity `size`. -/
theorem ctor_size_value_cases (heap : Heap α) (size : Nat) (value : α) :
    ctor_size_value heap size value = .error .bad_alloc ∨
    ∃ items, ctor_size_value heap size value
      = .ok { items_ := items, size_ := size, capacity_ := size } := by
  unfold ctor_size_value
  simp only
  split
  · split
    · rename_i e heq
      left
      rw [ArrayPtr.create_error heap size e heq]
    · right
      exact ⟨_, rfl⟩
  · right
    exact ⟨_, rfl⟩

/-- Constructor `SimpleVector(init)` either throws `std::bad_alloc` or builds a container
of length and capacity `init.size()`. -/
theorem ctor_init_list_cases [Inhabited α] (heap : Heap α) (init : List α) :
    ctor_init_list heap init = .error .bad_alloc ∨
    ∃ items, ctor_init_list heap init
      = .ok { items_ := items, size_ := init.length, capacity_ := init.length } := by
  unfold ctor_init_list ctor_size
  rcases ctor_size_value_cases heap init.length default with h | ⟨items, h⟩
  · left; rw [h]
  · right; rw [h]; exact ⟨_, rfl⟩

/-- The copy constructor either throws `std::bad_alloc` or builds a container
with the length and the capacity of `other`. -/
theorem ctor_copy_cases [Inhabited α] (heap : Heap α) (other : SimpleVector α) :
    ctor_copy heap other = .error .bad_alloc ∨
    ∃ items, ctor_copy heap other
      = .ok { items_ := items, size_ := other.size_, capacity_ := other.capacity_ } := by
  unfold ctor_copy ctor_size
  rcases ctor_size_value_cases heap other.capacity_ default with h | ⟨items, h⟩
  · left; rw [h]
  · right; rw [h]; exact ⟨_, rfl⟩

/-- Member `Reserve` never changes the length. -/
theorem Reserve_size (heap : Heap α) (self : SimpleVector α) (new_capacity : Nat) :
    (Reserve heap self new_capacity).1.size_ = self.size_ := by
  unfold Reserve
  split
  · split <;> rfl
  · rfl

/-- The reserving constructor either throws `std::bad_alloc` or builds the
container `Reserve` leaves from the default-constructed one. -/
theorem ctor_reserve_cases (heap : Heap α) (reserve_obj : ReserveProxyObj) :
    ctor_reserve heap reserve_obj = .error .bad_alloc ∨
    (ctor_reserve heap reserve_obj = .ok (Reserve heap {} reserve_obj.capacity_).1 ∧
      (Reserve heap ({} : SimpleVector α) reserve_obj.capacity_).2 = .ok ()) := by
  unfold ctor_reserve
  split
  · rename_i s e heq
    left
    rw [Reserve_error heap {} reserve_obj.capacity_ e (by rw [heq])]
  · rename_i s u heq
    right
    rw [heq]
    exact ⟨rfl, rfl⟩

/-- Copy assignment throws nothing but `std::bad_alloc`, and leaves `*this`
either as it was or with the length and capacity of `rhs`. -/
theorem assign_copy_cases [Inhabited α] (lt : α → α → Bool) (heap : Heap α)
    (self rhs : SimpleVector α) :
    ((assign_copy lt heap self rhs).2 = .ok () ∨
      (assign_copy lt heap self rhs).2 = .error .bad_alloc) ∧
    ((assign_copy lt heap self rhs).1 = self ∨
      ((assign_copy lt heap self rhs).1.size_ = rhs.size_ ∧
        (assign_copy lt heap self rhs).1.capacity_ = rhs.capacity_)) := by
  unfold assign_copy
  split
  · exact ⟨Or.inl rfl, Or.inl rfl⟩
  · rcases ctor_copy_cases heap rhs with h | ⟨items, h⟩
    · rw [h]
      exact ⟨Or.inr rfl, Or.inl rfl⟩
    · rw [h]
      exact ⟨Or.inl rfl, Or.inr ⟨rfl, rfl⟩⟩

/-- While free slots remain, a run of `PushBack` calls returns without asking
the allocation service for anything: the capacity stays as it is. -/
theorem PushBack_all_room [Inhabited α] (heap : Heap α) (self : SimpleVector α)
    (hwf : WF self) (vs : List α) (hroom : self.size_ + vs.length ≤ self.capacity_) :
    (PushBack_all heap self vs).2 = .ok () ∧
    WF (PushBack_all heap self vs).1 ∧
    (PushBack_all heap self vs).1.capacity_ = self.capacity_ ∧
    (PushBack_all heap self vs).1.size_ = self.size_ + vs.length ∧
    (PushBack_all heap self vs).1.elems = self.elems ++ vs := by
  induction vs generalizing self with
  | nil => simp [PushBack_all, hwf]
  | cons v vs ih =>
    simp only [List.length_cons] at hroom
    have hlt : self.size_ < self.capacity_ := by omega
    obtain ⟨p1, p2, p3, p4, p5, -⟩ :=
      PushBack_ok heap self v hwf (fun h => absurd hlt h)
    have p5 := p5 hlt
    simp only [PushBack_all]
    split
    · rename_i s e heq
      rw [heq] at p1
      simp at p1
    · rename_i s u heq
      rw [heq] at p2 p3 p4 p5
      simp only at p2 p3 p4 p5
      obtain ⟨q1, q2, q3, q4, q5⟩ := ih s p2 (by omega)
      refine ⟨q1, q2, by omega, ?_, ?_⟩
      · rw [q4, p3, List.length_cons]; omega
      · rw [q5, p4]; simp

end SimpleVector

/-! ## The claims -/

namespace SimpleVector

variable {α : Type}

/-- C1 (the code departs from it).  `Insert` shifts the tail with a forward
`std::copy` / `std::move` whose destination lies inside the source range, so
every shifted slot receives the element formerly at `pos` instead of its left
neighbour.  On the strings a, b, c built by three `PushBack` calls,
`Insert(begin() + 1, z)` leaves a, z, b, b (not a, z, b, c), the moving
overload leaves a, z, moved-from, b, and on 1, 2, 3 the same loop leaves
1, 9, 2, 2. -/
theorem Insert_overwrites_shifted_elements :
    (Insert (heapOf "") (PushBack_all (heapOf "") ctor_default ["a", "b", "c"]).1 1 "z").1.elems
      = ["a", "z", "b", "b"] ∧
    (∀ mv : String → String,
      (Insert_move mv (heapOf "") (PushBack_all (heapOf "") ctor_default ["a", "b", "c"]).1
        1 "z").1.elems = ["a", "z", mv "b", "b"]) ∧
    (Insert (heapOf 0) (PushBack_all (heapOf 0) ctor_default [1, 2, 3]).1 1 9).1.elems
      = [1, 9, 2, 2] ∧
    (Insert (heapOf 0) (PushBack_all (heapOf 0) ctor_default [1, 2, 3]).1 1 9).1.size_ = 4 ∧
    (Insert (heapOf 0) (PushBack_all (heapOf 0) ctor_default [1, 2, 3]).1 1 9).2 = .ok 1 := by
  refine ⟨by decide, fun mv => rfl, by decide, by decide, rfl⟩

/-- C2.  Starting from the default-constructed container and with an
allocation service that never fails, every run of `PushBack` calls returns and
leaves exactly the pushed values as live elements; and the next `PushBack`
(either overload) returns, raises the length by exactly one, puts the pushed
value at the final position behind the unchanged earlier elements, keeps the
length within the capacity, leaves the capacity alone when a slot was free and
otherwise makes it `max (length + 1) (capacity * 2)` of the values before the
call. -/
theorem PushBack_sequence [Inhabited α] (heap : Heap α) (hheap : ∀ n, heap n ≠ none)
    (vs : List α) (x : α) :
    (PushBack_all heap ctor_default vs).2 = .ok () ∧
    (PushBack_all heap ctor_default vs).1.elems = vs ∧
    (PushBack_all heap ctor_default vs).1.size_ = vs.length ∧
    PushBack_all heap ctor_default (vs ++ [x])
      = PushBack heap (PushBack_all heap ctor_default vs).1 x ∧
    PushBack_move heap (PushBack_all heap ctor_default vs).1 x
      = PushBack heap (PushBack_all heap ctor_default vs).1 x ∧
    (PushBack heap (PushBack_all heap ctor_default vs).1 x).2 = .ok () ∧
    (PushBack heap (PushBack_all heap ctor_default vs).1 x).1.size_
      = (PushBack_all heap ctor_default vs).1.size_ + 1 ∧
    (PushBack heap (PushBack_all heap ctor_default vs).1 x).1.elems[
        (PushBack_all heap ctor_default vs).1.size_]? = some x ∧
    (PushBack heap (PushBack_all heap ctor_default vs).1 x).1.elems
      = (PushBack_all heap ctor_default vs).1.elems ++ [x] ∧
    (PushBack heap (PushBack_all heap ctor_default vs).1 x).1.size_
      ≤ (PushBack heap (PushBack_all heap ctor_default vs).1 x).1.capacity_ ∧
    ((PushBack_all heap ctor_default vs).1.size_ < (PushBack_all heap ctor_default vs).1.capacity_ →
      (PushBack heap (PushBack_all heap ctor_default vs).1 x).1.capacity_
        = (PushBack_all heap ctor_default vs).1.capacity_) ∧
    (¬ (PushBack_all heap ctor_default vs).1.size_
        < (PushBack_all heap ctor_default vs).1.capacity_ →
      (PushBack heap (PushBack_all heap ctor_default vs).1 x).1.capacity_
        = max ((PushBack_all heap ctor_default vs).1.size_ + 1)
            ((PushBack_all heap ctor_default vs).1.capacity_ * 2)) := by
  obtain ⟨q1, q2, q3, q4⟩ := PushBack_all_ok heap hheap ctor_default WF_ctor_default vs
  obtain ⟨p1, p2, p3, p4, p5, p6⟩ :=
    PushBack_ok heap (PushBack_all heap ctor_default vs).1 x q2 (fun _ => hheap _)
  rw [elems_ctor_default, List.nil_append] at q4
  refine ⟨q1, q4, ?_, PushBack_all_concat heap _ vs x q1, rfl, p1, p3, ?_, p4, p2.1, p5, p6⟩
  · rw [q3]; simp [ctor_default]
  · rw [p4, q4, q3]; simp [ctor_default]

/-- What `PushBack_sequence` gives for the run 1, 2, 3 followed by a push of 4. -/
theorem PushBack_sequence_witness :
    (∀ n, heapOf 0 n ≠ none) ∧
    (PushBack_all (heapOf 0) ctor_default [1, 2, 3]).1.elems = [1, 2, 3] ∧
    (PushBack (heapOf 0) (PushBack_all (heapOf 0) ctor_default [1, 2, 3]).1 4).1.elems
      = [1, 2, 3, 4] ∧
    (PushBack (heapOf 0) (PushBack_all (heapOf 0) ctor_default [1, 2, 3]).1 4).1.capacity_ = 4 :=
  ⟨fun _ => by simp [heapOf],
   (PushBack_sequence (heapOf 0) (fun _ => by simp [heapOf]) [1, 2, 3] 4).2.1,
   (PushBack_sequence (heapOf 0) (fun _ => by simp [heapOf]) [1, 2, 3] 4).2.2.2.2.2.2.2.2.1,
   (PushBack_sequence (heapOf 0) (fun _ => by simp [heapOf]) [1, 2, 3] 4).2.2.2.2.2.2.2.2.2.2.1
     (by decide)⟩

/-- C3.  On a well-formed container and a position `pos` below the length,
`Erase` leaves the live elements before `pos` followed by those after it, in
their order, lowers the length by one, keeps the capacity, and returns `pos`:
the slot now holding the element that followed the erased one, and the end
position when the last element was erased. -/
theorem Erase_postcondition (mv : α → α) (self : SimpleVector α) (pos : Nat)
    (hwf : WF self) (hpos : pos < self.size_) :
    (Erase mv self pos).1.elems = self.elems.take pos ++ self.elems.drop (pos + 1) ∧
    (Erase mv self pos).1.size_ = self.size_ - 1 ∧
    (Erase mv self pos).1.capacity_ = self.capacity_ ∧
    (Erase mv self pos).2 = pos ∧
    (Erase mv self pos).1.elems[(Erase mv self pos).2]? = self.elems[pos + 1]? ∧
    (pos + 1 = self.size_ → (Erase mv self pos).2 = (Erase mv self pos).1.size_) := by
  have hsz : self.elems.length = self.size_ := by
    have h1 := hwf.1
    have h2 := hwf.2
    simp only [elems, List.length_take]; omega
  refine ⟨Erase_elems mv self pos hwf hpos, rfl, rfl, rfl, ?_, ?_⟩
  · rw [Erase_elems mv self pos hwf hpos]
    have e1 : (self.elems.take pos).length = pos := by
      simp only [List.length_take]; omega
    show (self.elems.take pos ++ self.elems.drop (pos + 1))[pos]? = _
    rw [List.getElem?_append_right (by omega), e1, Nat.sub_self, List.getElem?_drop]
  · intro h
    show pos = self.size_ - 1
    omega

/-- The scenario of the specification: `Erase(begin() + 2)` on 1, 9, 2, 3. -/
theorem Erase_postcondition_witness :
    WF (PushBack_all (heapOf 0) ctor_default [1, 9, 2, 3]).1 ∧
    2 < (PushBack_all (heapOf 0) ctor_default [1, 9, 2, 3]).1.size_ ∧
    (Erase id (PushBack_all (heapOf 0) ctor_default [1, 9, 2, 3]).1 2).1.elems = [1, 9, 3] ∧
    (Erase id (PushBack_all (heapOf 0) ctor_default [1, 9, 2, 3]).1 2).1.size_ = 3 :=
  ⟨by decide, by decide,
   (Erase_postcondition id (PushBack_all (heapOf 0) ctor_default [1, 9, 2, 3]).1 2
      (by decide) (by decide)).1,
   (Erase_postcondition id (PushBack_all (heapOf 0) ctor_default [1, 9, 2, 3]).1 2
      (by decide) (by decide)).2.1⟩

/-- C4 (the code departs from it).  `Insert` followed by `Erase` at the same
position does not give the container back: on the strings a, b, c,
`Insert(begin() + 1, z)` then `Erase(begin() + 1)` leaves a, b, b (with either
overload of `Insert`, whatever the moved-from state), because `Insert` has
already overwritten the shifted elements. -/
theorem Insert_then_Erase_loses_elements :
    (PushBack_all (heapOf "") ctor_default ["a", "b", "c"]).1.elems = ["a", "b", "c"] ∧
    (∀ mv : String → String,
      (Erase mv
        (Insert (heapOf "") (PushBack_all (heapOf "") ctor_default ["a", "b", "c"]).1 1 "z").1
        1).1.elems = ["a", "b", "b"]) ∧
    (∀ mv : String → String,
      (Erase mv
        (Insert_move mv (heapOf "")
          (PushBack_all (heapOf "") ctor_default ["a", "b", "c"]).1 1 "z").1
        1).1.elems = ["a", mv "b", "b"]) ∧
    (Erase id
        (Insert (heapOf "") (PushBack_all (heapOf "") ctor_default ["a", "b", "c"]).1 1 "z").1
        1).1.size_ = 3 := by
  refine ⟨by decide, fun mv => rfl, fun mv => rfl, by decide⟩

/-- C5.  On a well-formed container, whatever its slots past the length hold,
and when the allocation a growth needs succeeds, `Resize` returns with the
length `new_size`; the live elements are the former ones below `new_size`
followed by default values for every index from the former length up to
`new_size`; the capacity is unchanged when `new_size` is within it and is
`max new_size (capacity * 2)` otherwise, and then every slot from the former
length up to the new capacity holds the default value. -/
theorem Resize_postcondition [Inhabited α] (heap : Heap α) (self : SimpleVector α)
    (new_size : Nat) (hwf : WF self)
    (halloc : self.capacity_ < new_size → heap (max new_size (self.capacity_ * 2)) ≠ none) :
    (Resize heap self new_size).2 = .ok () ∧
    (Resize heap self new_size).1.size_ = new_size ∧
    (Resize heap self new_size).1.elems
      = self.elems.take new_size ++ List.replicate (new_size - self.size_) default ∧
    (new_size ≤ self.capacity_ → (Resize heap self new_size).1.capacity_ = self.capacity_) ∧
    (self.capacity_ < new_size →
      (Resize heap self new_size).1.capacity_ = max new_size (self.capacity_ * 2) ∧
      ∀ i, self.size_ ≤ i → i < (Resize heap self new_size).1.capacity_ →
        (Resize heap self new_size).1.items_[i]? = some default) := by
  have h1 := hwf.1
  have h2 := hwf.2
  by_cases c1 : new_size ≤ self.size_
  · rw [Resize_shrink heap self new_size c1]
    refine ⟨rfl, rfl, ?_, fun _ => rfl, fun h => by omega⟩
    simp only [elems, List.take_take]
    rw [Nat.sub_eq_zero_of_le c1, min_eq_left c1]
    simp
  · by_cases c2 : new_size ≤ self.capacity_
    · rw [Resize_within heap self new_size hwf (by omega) c2]
      refine ⟨rfl, rfl, ?_, fun _ => rfl, fun h => by omega⟩
      simp only [elems, List.take_take]
      rw [List.take_left' (by simp; omega), min_eq_right (by omega)]
    · obtain ⟨init, hinit⟩ := Option.ne_none_iff_exists'.mp (halloc (by omega))
      rw [Resize_grow heap self new_size hwf (by omega) init hinit]
      refine ⟨rfl, rfl, ?_, fun h => absurd h c2, fun _ => ⟨rfl, ?_⟩⟩
      · simp only [elems, List.take_take]
        rw [min_eq_right (by omega)]
        have e1 : (List.take self.size_ self.items_).length = self.size_ := by simp; omega
        rw [List.take_append_eq_append_take, e1, List.take_of_length_le (by omega),
          List.take_replicate]
        congr 2
        omega
      · intro i hi1 hi2
        simp only at hi2 ⊢
        have e1 : (List.take self.size_ self.items_).length = self.size_ := by simp; omega
        rw [List.getElem?_append_right (by omega), e1, List.getElem?_replicate]
        rw [if_pos (by omega)]

/-- What `Resize_postcondition` gives for a growth of 1, 2, 3 (capacity 4) to
6 elements. -/
theorem Resize_postcondition_witness :
    WF (PushBack_all (heapOf 7) ctor_default [1, 2, 3]).1 ∧
    ((PushBack_all (heapOf 7) ctor_default [1, 2, 3]).1.capacity_ < 6 →
      heapOf 7 (max 6 ((PushBack_all (heapOf 7) ctor_default [1, 2, 3]).1.capacity_ * 2))
        ≠ none) ∧
    (Resize (heapOf 7) (PushBack_all (heapOf 7) ctor_default [1, 2, 3]).1 6).1.elems
      = [1, 2, 3, 0, 0, 0] ∧
    (Resize (heapOf 7) (PushBack_all (heapOf 7) ctor_default [1, 2, 3]).1 6).1.capacity_ = 8 :=
  ⟨by decide, fun _ => by simp [heapOf],
   (Resize_postcondition (heapOf 7) (PushBack_all (heapOf 7) ctor_default [1, 2, 3]).1 6
      (by decide) (fun _ => by simp [heapOf])).2.2.1,
   ((Resize_postcondition (heapOf 7) (PushBack_all (heapOf 7) ctor_default [1, 2, 3]).1 6
      (by decide) (fun _ => by simp [heapOf])).2.2.2.2 (by decide)).1⟩

/-- C6 (the code departs from it).  The growth branch of `Resize` assigns
`capacity_` before it allocates, so a `std::bad_alloc` from `Resize`, and from
`PushBack` and `Insert` that grow through it, leaves the container with a
raised capacity over the old buffer: on the full container 1, 2 (capacity 2)
each of the three throws and leaves capacity 4 with a buffer of 2 slots.
`Reserve` allocates first and leaves the container as it was. -/
theorem Resize_raises_capacity_before_allocating :
    (PushBack_all (heapOf 0) ctor_default [1, 2]).1
      = { items_ := [1, 2], size_ := 2, capacity_ := 2 } ∧
    Resize heapFail { items_ := [1, 2], size_ := 2, capacity_ := 2 } 3
      = ({ items_ := [1, 2], size_ := 2, capacity_ := 4 }, .error .bad_alloc) ∧
    PushBack heapFail { items_ := [1, 2], size_ := 2, capacity_ := 2 } 3
      = ({ items_ := [1, 2], size_ := 2, capacity_ := 4 }, .error .bad_alloc) ∧
    Insert heapFail { items_ := [1, 2], size_ := 2, capacity_ := 2 } 0 3
      = ({ items_ := [1, 2], size_ := 2, capacity_ := 4 }, .error .bad_alloc) ∧
    Reserve heapFail { items_ := [1, 2], size_ := 2, capacity_ := 2 } 3
      = ({ items_ := [1, 2], size_ := 2, capacity_ := 2 }, .error .bad_alloc) := by
  refine ⟨by decide, rfl, rfl, rfl, rfl⟩

/-- C7.  On a well-formed container, `Reserve` of more than the capacity
returns (when its allocation succeeds) with the capacity exactly
`new_capacity`, the length and the live elements as before; `Reserve` of no
more than the capacity changes nothing at all. -/
theorem Reserve_postcondition (heap : Heap α) (self : SimpleVector α) (new_capacity : Nat)
    (hwf : WF self) (halloc : self.capacity_ < new_capacity → heap new_capacity ≠ none) :
    (self.capacity_ < new_capacity →
      (Reserve heap self new_capacity).2 = .ok () ∧
      (Reserve heap self new_capacity).1.capacity_ = new_capacity ∧
      (Reserve heap self new_capacity).1.size_ = self.size_ ∧
      (Reserve heap self new_capacity).1.elems = self.elems) ∧
    (new_capacity ≤ self.capacity_ → Reserve heap self new_capacity = (self, .ok ())) := by
  refine ⟨fun hgt => ?_, fun hle => Reserve_noop heap self new_capacity hle⟩
  obtain ⟨init, hinit⟩ := Option.ne_none_iff_exists'.mp (halloc hgt)
  rw [Reserve_grow heap self new_capacity hwf hgt init hinit]
  refine ⟨rfl, rfl, rfl, ?_⟩
  have h1 := hwf.1
  have h2 := hwf.2
  simp only [elems]
  rw [List.take_left' (by simp; omega)]

/-- What `Reserve_postcondition` gives for `Reserve(10)` and `Reserve(2)` on
1, 2, 3 (capacity 4). -/
theorem Reserve_postcondition_witness :
    WF (PushBack_all (heapOf 7) ctor_default [1, 2, 3]).1 ∧
    ((PushBack_all (heapOf 7) ctor_default [1, 2, 3]).1.capacity_ < 10 →
      heapOf 7 10 ≠ none) ∧
    (Reserve (heapOf 7) (PushBack_all (heapOf 7) ctor_default [1, 2, 3]).1 10).1.capacity_
      = 10 ∧
    (Reserve (heapOf 7) (PushBack_all (heapOf 7) ctor_default [1, 2, 3]).1 10).1.elems
      = [1, 2, 3] ∧
    Reserve (heapOf 7) (PushBack_all (heapOf 7) ctor_default [1, 2, 3]).1 2
      = ((PushBack_all (heapOf 7) ctor_default [1, 2, 3]).1, .ok ()) :=
  ⟨by decide, fun _ => by simp [heapOf],
   ((Reserve_postcondition (heapOf 7) (PushBack_all (heapOf 7) ctor_default [1, 2, 3]).1 10
      (by decide) (fun _ => by simp [heapOf])).1 (by decide)).2.1,
   ((Reserve_postcondition (heapOf 7) (PushBack_all (heapOf 7) ctor_default [1, 2, 3]).1 10
      (by decide) (fun _ => by simp [heapOf])).1 (by decide)).2.2.2,
   (Reserve_postcondition (heapOf 7) (PushBack_all (heapOf 7) ctor_default [1, 2, 3]).1 2
      (by decide) (fun h => absurd h (by decide))).2 (by decide)⟩

/-- C9.  `At` fails with `std::out_of_range` exactly when the index is not
below the length; below the length it returns the live element at that index
(of a well-formed container); either way the container is as before.  No other
operation that can throw throws `std::out_of_range`: the constructors,
copy assignment, `Reserve`, `Resize`, `PushBack` and `Insert` throw nothing but
`std::bad_alloc` (the remaining operations cannot throw at all). -/
theorem At_postcondition [Inhabited α] (self : SimpleVector α) (index : Nat)
    (hwf : WF self) :
    ((At self index).2 = .error .out_of_range ↔ index ≥ self.size_) ∧
    (index < self.size_ →
      ∃ x, self.elems[index]? = some x ∧ (At self index).2 = .ok x) ∧
    (At self index).1 = self ∧
    (∀ (lt : α → α → Bool) (mv : α → α) (heap : Heap α) (other : SimpleVector α)
        (n pos : Nat) (value : α) (init : List α) (reserve_obj : ReserveProxyObj),
      ctor_size heap n ≠ .error .out_of_range ∧
      ctor_size_value heap n value ≠ .error .out_of_range ∧
      ctor_init_list heap init ≠ .error .out_of_range ∧
      ctor_copy heap other ≠ .error .out_of_range ∧
      ctor_reserve heap reserve_obj ≠ .error .out_of_range ∧
      (assign_copy lt heap self other).2 ≠ .error .out_of_range ∧
      (Reserve heap self n).2 ≠ .error .out_of_range ∧
      (Resize heap self n).2 ≠ .error .out_of_range ∧
      (PushBack heap self value).2 ≠ .error .out_of_range ∧
      (PushBack_move heap self value).2 ≠ .error .out_of_range ∧
      (Insert heap self pos value).2 ≠ .error .out_of_range ∧
      (Insert_move mv heap self pos value).2 ≠ .error .out_of_range) := by
  have h1 := hwf.1
  have h2 := hwf.2
  refine ⟨?_, ?_, ?_, ?_⟩
  · unfold At
    by_cases c : index ≥ self.size_
    · simp [c]
    · simp only [c, if_false, iff_false]
      intro h
      cases h
  · intro hlt
    refine ⟨self.items_.getD index default, ?_, ?_⟩
    · have hlen : index < self.items_.length := by omega
      simp only [elems, List.getElem?_take, hlt, if_true, List.getD_eq_getElem?_getD,
        List.getElem?_eq_getElem hlen, Option.getD_some]
    · have c : ¬ index ≥ self.size_ := by omega
      simp only [At, c, if_false]
  · unfold At
    split <;> rfl
  · intro lt mv heap other n pos value init reserve_obj
    refine ⟨?_, ?_, ?_, ?_, ?_, ?_, ?_, ?_, ?_, ?_, ?_, ?_⟩
    · intro h
      rcases ctor_size_value_cases heap n (default : α) with h' | ⟨items, h'⟩ <;>
        · unfold ctor_size at h
          rw [h'] at h
          cases h
    · intro h
      rcases ctor_size_value_cases heap n value with h' | ⟨items, h'⟩ <;>
        · rw [h'] at h
          cases h
    · intro h
      rcases ctor_init_list_cases heap init with h' | ⟨items, h'⟩ <;>
        · rw [h'] at h
          cases h
    · intro h
      rcases ctor_copy_cases heap other with h' | ⟨items, h'⟩ <;>
        · rw [h'] at h
          cases h
    · intro h
      rcases ctor_reserve_cases heap reserve_obj with h' | ⟨h', -⟩ <;>
        · rw [h'] at h
          cases h
    · intro h
      rcases (assign_copy_cases lt heap self other).1 with h' | h' <;>
        · rw [h'] at h
          cases h
    · intro h
      have := Reserve_error heap self n _ h
      cases this
    · intro h
      have := Resize_error heap self n _ h
      cases this
    · intro h
      have := PushBack_error heap self value _ h
      cases this
    · intro h
      have := PushBack_error heap self value _ h
      cases this
    · intro h
      have := Insert_error heap self pos value _ h
      cases this
    · intro h
      have := Insert_move_error mv heap self pos value _ h
      cases this

/-- The scenario of the specification: `At(5)` on the container 1, 9, 3 of
length 3 fails with `std::out_of_range`, and `At(1)` returns 9. -/
theorem At_postcondition_witness :
    WF (PushBack_all (heapOf 0) ctor_default [1, 9, 3]).1 ∧
    (PushBack_all (heapOf 0) ctor_default [1, 9, 3]).1.size_ = 3 ∧
    (At (PushBack_all (heapOf 0) ctor_default [1, 9, 3]).1 5).2 = .error .out_of_range ∧
    (∃ x, (PushBack_all (heapOf 0) ctor_default [1, 9, 3]).1.elems[1]? = some x ∧
      (At (PushBack_all (heapOf 0) ctor_default [1, 9, 3]).1 1).2 = .ok x) :=
  ⟨by decide, by decide,
   (At_postcondition (PushBack_all (heapOf 0) ctor_default [1, 9, 3]).1 5
      (by decide)).1.mpr (by decide),
   (At_postcondition (PushBack_all (heapOf 0) ctor_default [1, 9, 3]).1 1
      (by decide)).2.1 (by decide)⟩

/-- C10.  Every constructor that returns builds a container with
`0 ≤ length ≤ capacity`, and every operation, applied to containers that
satisfy it and (for `Insert` and `Erase`) to a position within its
precondition, leaves containers that satisfy it, whether the operation returns
or throws; `PopBack` on an empty container leaves the length 0. -/
theorem Inv_constructed_and_preserved [Inhabited α] (lt : α → α → Bool) (mv : α → α)
    (heap : Heap α) (self other : SimpleVector α) (hself : Inv self) (hother : Inv other)
    (n pos : Nat) (value : α) (init : List α) (reserve_obj : ReserveProxyObj) :
    Inv (ctor_default : SimpleVector α) ∧
    (∀ v, ctor_size heap n = .ok v → Inv v) ∧
    (∀ v, ctor_size_value heap n value = .ok v → Inv v) ∧
    (∀ v, ctor_init_list heap init = .ok v → Inv v) ∧
    (∀ v, ctor_copy heap other = .ok v → Inv v) ∧
    (Inv (ctor_move other).1 ∧ Inv (ctor_move other).2) ∧
    (∀ v, ctor_reserve heap reserve_obj = .ok v → Inv v) ∧
    Inv (assign_copy lt heap self other).1 ∧
    (Inv (assign_move lt self other).1 ∧ Inv (assign_move lt self other).2) ∧
    Inv (Reserve heap self n).1 ∧
    Inv (Resize heap self n).1 ∧
    Inv (PushBack heap self value).1 ∧
    Inv (PushBack_move heap self value).1 ∧
    Inv (PopBack self) ∧
    (self.size_ = 0 → (PopBack self).size_ = 0) ∧
    (pos ≤ self.size_ → Inv (Insert heap self pos value).1) ∧
    (pos ≤ self.size_ → Inv (Insert_move mv heap self pos value).1) ∧
    (pos < self.size_ → Inv (Erase mv self pos).1) ∧
    Inv (Clear self) ∧
    (Inv (swap self other).1 ∧ Inv (swap self other).2) := by
  have hs := hself.2
  have ho := hother.2
  have hempty : Inv ({ items_ := [], size_ := 0, capacity_ := 0 } : SimpleVector α) :=
    ⟨Nat.le_refl _, Nat.le_refl _⟩
  refine ⟨hempty, ?_, ?_, ?_, ?_, ⟨hother, hempty⟩, ?_, ?_, ?_, ?_, ?_, ?_, ?_, ?_, ?_, ?_, ?_,
    ?_, ?_, ⟨hother, hself⟩⟩
  · intro v h
    unfold ctor_size at h
    rcases ctor_size_value_cases heap n (default : α) with h' | ⟨items, h'⟩
    · rw [h'] at h; cases h
    · rw [h'] at h; cases h; exact ⟨Nat.zero_le _, Nat.le_refl _⟩
  · intro v h
    rcases ctor_size_value_cases heap n value with h' | ⟨items, h'⟩
    · rw [h'] at h; cases h
    · rw [h'] at h; cases h; exact ⟨Nat.zero_le _, Nat.le_refl _⟩
  · intro v h
    rcases ctor_init_list_cases heap init with h' | ⟨items, h'⟩
    · rw [h'] at h; cases h
    · rw [h'] at h; cases h; exact ⟨Nat.zero_le _, Nat.le_refl _⟩
  · intro v h
    rcases ctor_copy_cases heap other with h' | ⟨items, h'⟩
    · rw [h'] at h; cases h
    · rw [h'] at h; cases h; exact ⟨Nat.zero_le _, ho⟩
  · intro v h
    rcases ctor_reserve_cases heap reserve_obj with h' | ⟨h', -⟩
    · rw [h'] at h; cases h
    · rw [h'] at h; cases h
      exact ⟨Nat.zero_le _, Reserve_size_le_capacity heap {} _ (Nat.le_refl _)⟩
  · rcases (assign_copy_cases lt heap self other).2 with h' | ⟨h1, h2⟩
    · rw [h']; exact hself
    · exact ⟨Nat.zero_le _, by rw [h1, h2]; exact ho⟩
  · unfold assign_move
    split
    · exact ⟨hself, hother⟩
    · exact ⟨hother, hempty⟩
  · exact ⟨Nat.zero_le _, Reserve_size_le_capacity heap self n hs⟩
  · exact ⟨Nat.zero_le _, Resize_size_le_capacity heap self n hs⟩
  · exact ⟨Nat.zero_le _, PushBack_size_le_capacity heap self value hs⟩
  · exact ⟨Nat.zero_le _, PushBack_size_le_capacity heap self value hs⟩
  · unfold PopBack
    split
    · exact ⟨Nat.zero_le _, by simp only; omega⟩
    · exact hself
  · intro h0
    unfold PopBack
    split
    · simp only; omega
    · exact h0
  · intro _
    obtain ⟨e1, e2⟩ := Insert_size_capacity heap self pos value
    exact ⟨Nat.zero_le _, by rw [e1, e2]; exact Resize_size_le_capacity heap self _ hs⟩
  · intro _
    obtain ⟨e1, e2⟩ := Insert_move_size_capacity mv heap self pos value
    exact ⟨Nat.zero_le _, by rw [e1, e2]; exact Resize_size_le_capacity heap self _ hs⟩
  · intro _
    exact ⟨Nat.zero_le _, by simp only [Erase]; omega⟩
  · exact ⟨Nat.zero_le _, Nat.zero_le _⟩

/-- What `Inv_constructed_and_preserved` gives for the containers 1, 2, 3 and
4, 5: the invariant after a `PushBack` that fails to allocate, after an
`Erase`, after a copy assignment, and for a copy. -/
theorem Inv_constructed_and_preserved_witness :
    Inv (PushBack_all (heapOf 0) ctor_default [1, 2, 3]).1 ∧
    Inv (PushBack_all (heapOf 0) ctor_default [4, 5]).1 ∧
    Inv (PushBack heapFail (PushBack_all (heapOf 0) ctor_default [1, 2, 3]).1 4).1 ∧
    (1 < (PushBack_all (heapOf 0) ctor_default [1, 2, 3]).1.size_ →
      Inv (Erase id (PushBack_all (heapOf 0) ctor_default [1, 2, 3]).1 1).1) ∧
    Inv (assign_copy (fun a b => decide (a < b)) heapFail
      (PushBack_all (heapOf 0) ctor_default [1, 2, 3]).1
      (PushBack_all (heapOf 0) ctor_default [4, 5]).1).1 ∧
    (∀ v, ctor_copy (heapOf 0) (PushBack_all (heapOf 0) ctor_default [4, 5]).1 = .ok v →
      Inv v) :=
  ⟨by decide, by decide,
   (Inv_constructed_and_preserved (fun a b => decide (a < b)) id heapFail
      (PushBack_all (heapOf 0) ctor_default [1, 2, 3]).1
      (PushBack_all (heapOf 0) ctor_default [4, 5]).1 (by decide) (by decide)
      3 1 4 [7, 8] ⟨3⟩).2.2.2.2.2.2.2.2.2.2.2.1,
   (Inv_constructed_and_preserved (fun a b => decide (a < b)) id heapFail
      (PushBack_all (heapOf 0) ctor_default [1, 2, 3]).1
      (PushBack_all (heapOf 0) ctor_default [4, 5]).1 (by decide) (by decide)
      3 1 4 [7, 8] ⟨3⟩).2.2.2.2.2.2.2.2.2.2.2.2.2.2.2.2.2.1,
   (Inv_constructed_and_preserved (fun a b => decide (a < b)) id heapFail
      (PushBack_all (heapOf 0) ctor_default [1, 2, 3]).1
      (PushBack_all (heapOf 0) ctor_default [4, 5]).1 (by decide) (by decide)
      3 1 4 [7, 8] ⟨3⟩).2.2.2.2.2.2.2.1,
   (Inv_constructed_and_preserved (fun a b => decide (a < b)) id (heapOf 0)
      (PushBack_all (heapOf 0) ctor_default [1, 2, 3]).1
      (PushBack_all (heapOf 0) ctor_default [4, 5]).1 (by decide) (by decide)
      3 1 4 [7, 8] ⟨3⟩).2.2.2.2.1⟩

end SimpleVector

/-- C8.  Give the default-constructed container capacity `n` by
`Reserve(n)` (its allocation succeeding), which is also what the constructor
from `Reserve(n)`'s proxy object builds.  Then for every run `vs` of at most
`n` values and every `k` up to its length, the first `k` `PushBack` calls all
return, whatever the allocation service does by then (it is never asked),
and leave capacity exactly `n`, length `k` and the pushed values as live
elements. -/
theorem Reserve_then_PushBack_keeps_capacity {α : Type} [Inhabited α] (heap heap' : Heap α)
    (n : Nat) (halloc : n ≠ 0 → heap n ≠ none) (vs : List α) (hlen : vs.length ≤ n)
    (k : Nat) (hk : k ≤ vs.length) :
    (SimpleVector.Reserve heap SimpleVector.ctor_default n).2 = .ok () ∧
    SimpleVector.ctor_reserve heap (Reserve n)
      = .ok (SimpleVector.Reserve heap SimpleVector.ctor_default n).1 ∧
    (SimpleVector.Reserve heap SimpleVector.ctor_default n).1.capacity_ = n ∧
    (SimpleVector.Reserve heap SimpleVector.ctor_default n).1.size_ = 0 ∧
    (SimpleVector.PushBack_all heap'
      (SimpleVector.Reserve heap SimpleVector.ctor_default n).1 (vs.take k)).2 = .ok () ∧
    (SimpleVector.PushBack_all heap'
      (SimpleVector.Reserve heap SimpleVector.ctor_default n).1 (vs.take k)).1.capacity_ = n ∧
    (SimpleVector.PushBack_all heap'
      (SimpleVector.Reserve heap SimpleVector.ctor_default n).1 (vs.take k)).1.size_ = k ∧
    (SimpleVector.PushBack_all heap'
      (SimpleVector.Reserve heap SimpleVector.ctor_default n).1 (vs.take k)).1.elems
        = vs.take k := by
  have hres : (SimpleVector.Reserve heap SimpleVector.ctor_default n).2 = .ok () ∧
      SimpleVector.WF (SimpleVector.Reserve heap SimpleVector.ctor_default n).1 ∧
      (SimpleVector.Reserve heap SimpleVector.ctor_default n).1.capacity_ = n ∧
      (SimpleVector.Reserve heap SimpleVector.ctor_default n).1.size_ = 0 ∧
      (SimpleVector.Reserve heap SimpleVector.ctor_default n).1.elems = [] := by
    by_cases h0 : n = 0
    · subst h0
      rw [SimpleVector.Reserve_noop heap _ 0 (Nat.zero_le _)]
      simp [SimpleVector.WF, SimpleVector.ctor_default, SimpleVector.elems]
    · obtain ⟨init, hinit⟩ := Option.ne_none_iff_exists'.mp (halloc h0)
      rw [SimpleVector.Reserve_grow heap _ n SimpleVector.WF_ctor_default
        (by simp [SimpleVector.ctor_default]; omega) init hinit]
      simp [SimpleVector.WF, SimpleVector.ctor_default, SimpleVector.elems]
  obtain ⟨r1, r2, r3, r4, r5⟩ := hres
  have hctor : SimpleVector.ctor_reserve heap (Reserve n)
      = .ok (SimpleVector.Reserve heap SimpleVector.ctor_default n).1 := by
    rcases SimpleVector.ctor_reserve_cases heap (Reserve n) with h | ⟨h, -⟩
    · exfalso
      unfold SimpleVector.ctor_reserve at h
      have r1' : (SimpleVector.Reserve heap ({} : SimpleVector α) (Reserve n).capacity_).2
          = .ok () := r1
      split at h
      · rename_i s e heq
        rw [heq] at r1'
        simp at r1'
      · simp at h
    · exact h
  have hlen' : (vs.take k).length = k := by simp; omega
  obtain ⟨q1, -, q3, q4, q5⟩ := SimpleVector.PushBack_all_room heap'
    (SimpleVector.Reserve heap SimpleVector.ctor_default n).1 r2 (vs.take k)
    (by rw [r3, r4, hlen']; omega)
  refine ⟨r1, hctor, r3, r4, q1, by rw [q3, r3], by rw [q4, r4, hlen']; omega, ?_⟩
  rw [q5, r5, List.nil_append]

/-- What `Reserve_then_PushBack_keeps_capacity` gives for `Reserve(3)` followed
by pushes of 1, 2, 3 with an allocation service that has started to fail. -/
theorem Reserve_then_PushBack_keeps_capacity_witness :
    (3 ≠ 0 → heapOf 0 3 ≠ none) ∧ [1, 2, 3].length ≤ 3 ∧ 3 ≤ [1, 2, 3].length ∧
    (SimpleVector.PushBack_all heapFail
      (SimpleVector.Reserve (heapOf 0) SimpleVector.ctor_default 3).1 [1, 2, 3]).1.capacity_
        = 3 ∧
    (SimpleVector.PushBack_all heapFail
      (SimpleVector.Reserve (heapOf 0) SimpleVector.ctor_default 3).1 [1, 2, 3]).1.size_
        = 3 :=
  ⟨fun _ => by simp [heapOf], by decide, by decide,
   (Reserve_then_PushBack_keeps_capacity (heapOf 0) heapFail 3 (fun _ => by simp [heapOf])
      [1, 2, 3] (by decide) 3 (by decide)).2.2.2.2.2.1,
   (Reserve_then_PushBack_keeps_capacity (heapOf 0) heapFail 3 (fun _ => by simp [heapOf])
      [1, 2, 3] (by decide) 3 (by decide)).2.2.2.2.2.2.1⟩

/-! ## Facts about the comparison operators -/

/-- A range is not lexicographically less than itself when `lt` is
irreflexive. -/
theorem lexicographical_compare_self {α : Type} (lt : α → α → Bool)
    (hirr : ∀ a, lt a a = false) (l : List α) : lexicographical_compare lt l l = false := by
  induction l with
  | nil => rfl
  | cons a l ih => simp [lexicographical_compare, hirr, ih]

/-- Past a common prefix, the comparison is that of the remainders. -/
theorem lexicographical_compare_append {α : Type} (lt : α → α → Bool)
    (hirr : ∀ a, lt a a = false) (pre xs ys : List α) :
    lexicographical_compare lt (pre ++ xs) (pre ++ ys) = lexicographical_compare lt xs ys := by
  induction pre with
  | nil => rfl
  | cons a pre ih => simp [lexicographical_compare, hirr, ih]

/-- What `std::lexicographical_compare` decides under an irreflexive `lt` in
which distinct values are comparable: the first range is a proper prefix of
the second, or the first is smaller at the first index where they differ. -/
theorem lexicographical_compare_iff {α : Type} (lt : α → α → Bool)
    (hirr : ∀ a, lt a a = false) (htri : ∀ a b, a ≠ b → lt a b = true ∨ lt b a = true)
    (xs ys : List α) :
    lexicographical_compare lt xs ys = true ↔
      (∃ t, t ≠ [] ∧ ys = xs ++ t) ∨
      (∃ pre x y s t, xs = pre ++ x :: s ∧ ys = pre ++ y :: t ∧ x ≠ y ∧ lt x y = true) := by
  induction xs generalizing ys with
  | nil =>
    cases ys with
    | nil =>
      simp only [lexicographical_compare, Bool.false_eq_true, false_iff, not_or]
      constructor
      · rintro ⟨t, ht, h⟩
        simp at h
        exact ht h
      · rintro ⟨pre, x, y, s, t, h, -⟩
        simp at h
    | cons b bs =>
      simp only [lexicographical_compare, true_iff]
      exact Or.inl ⟨b :: bs, by simp, by simp⟩
  | cons a as ih =>
    cases ys with
    | nil =>
      simp only [lexicographical_compare, Bool.false_eq_true, false_iff, not_or]
      constructor
      · rintro ⟨t, -, h⟩
        simp at h
      · rintro ⟨pre, x, y, s, t, -, h, -⟩
        simp at h
    | cons b bs =>
      simp only [lexicographical_compare]
      by_cases hab : lt a b = true
      · simp only [hab, if_true, true_iff]
        right
        refine ⟨[], a, b, as, bs, rfl, rfl, ?_, hab⟩
        intro h
        rw [h, hirr] at hab
        cases hab
      · by_cases hba : lt b a = true
        · simp only [hab, hba, if_true, if_false, Bool.false_eq_true, false_iff, not_or]
          have hne : a ≠ b := by
            intro h
            rw [h, hirr] at hba
            cases hba
          constructor
          · rintro ⟨t, -, h⟩
            simp only [List.cons_append, List.cons.injEq] at h
            exact hne h.1.symm
          · rintro ⟨pre, x, y, s, t, h1, h2, hxy, hlt⟩
            cases pre with
            | nil =>
              simp only [List.nil_append, List.cons.injEq] at h1 h2
              rw [← h1.1, ← h2.1] at hlt
              exact hab hlt
            | cons p pre =>
              simp only [List.cons_append, List.cons.injEq] at h1 h2
              exact hne (h1.1.trans h2.1.symm)
        · have heq : a = b := by
            by_contra hne
            rcases htri a b hne with h | h
            · exact hab h
            · exact hba h
          subst heq
          simp only [hirr, Bool.false_eq_true, if_false]
          rw [ih bs]
          constructor
          · rintro (⟨t, ht, h⟩ | ⟨pre, x, y, s, t, h1, h2, hxy, hlt⟩)
            · exact Or.inl ⟨t, ht, by rw [h]; rfl⟩
            · exact Or.inr ⟨a :: pre, x, y, s, t, by rw [h1]; rfl, by rw [h2]; rfl, hxy, hlt⟩
          · rintro (⟨t, ht, h⟩ | ⟨pre, x, y, s, t, h1, h2, hxy, hlt⟩)
            · simp only [List.cons_append, List.cons.injEq, true_and] at h
              exact Or.inl ⟨t, ht, h⟩
            · cases pre with
              | nil =>
                simp only [List.nil_append, List.cons.injEq] at h1 h2
                rw [← h1.1, ← h2.1] at hxy
                exact absurd rfl hxy
              | cons p pre =>
                simp only [List.cons_append, List.cons.injEq] at h1 h2
                exact Or.inr ⟨pre, x, y, s, t, h1.2, h2.2, hxy, hlt⟩

/-- Under an irreflexive `lt` in which distinct values are comparable, two
ranges of which neither is lexicographically less than the other are equal. -/
theorem eq_of_lexicographical_compare_false {α : Type} (lt : α → α → Bool)
    (htri : ∀ a b, a ≠ b → lt a b = true ∨ lt b a = true) (xs ys : List α)
    (h1 : lexicographical_compare lt xs ys = false)
    (h2 : lexicographical_compare lt ys xs = false) : xs = ys := by
  induction xs generalizing ys with
  | nil =>
    cases ys with
    | nil => rfl
    | cons b bs => simp [lexicographical_compare] at h1
  | cons a as ih =>
    cases ys with
    | nil => simp [lexicographical_compare] at h2
    | cons b bs =>
      simp only [lexicographical_compare] at h1 h2
      by_cases hab : lt a b = true
      · simp [hab] at h1
      · by_cases hba : lt b a = true
        · simp [hba] at h2
        · have heq : a = b := by
            by_contra hne
            rcases htri a b hne with h | h
            · exact hab h
            · exact hba h
          subst heq
          simp only [hab, if_false] at h1 h2
          rw [ih bs h1 h2]

namespace SimpleVector

variable {α : Type}

/-- The derived equality holds exactly when neither live sequence is
lexicographically less than the other. -/
theorem op_eq_true_iff (lt : α → α → Bool) (lhs rhs : SimpleVector α) :
    op_eq lt lhs rhs = true ↔
      lexicographical_compare lt rhs.elems lhs.elems = false ∧
      lexicographical_compare lt lhs.elems rhs.elems = false := by
  simp [op_eq, op_ne, op_gt, op_lt]

/-- A container compares equal to itself when `lt` is irreflexive. -/
theorem op_eq_self (lt : α → α → Bool) (hirr : ∀ a, lt a a = false) (self : SimpleVector α) :
    op_eq lt self self = true := by
  rw [op_eq_true_iff]
  exact ⟨lexicographical_compare_self lt hirr _, lexicographical_compare_self lt hirr _⟩

/-- The live elements of a well-formed container are as many as its length. -/
theorem length_elems (self : SimpleVector α) (hwf : WF self) :
    self.elems.length = self.size_ := by
  have h1 := hwf.1
  have h2 := hwf.2
  simp only [elems, List.length_take]
  omega

/-- Two well-formed containers have the same live elements exactly when they
have the same length and equal slots below it. -/
theorem elems_eq_iff (a b : SimpleVector α) (ha : WF a) (hb : WF b) :
    a.elems = b.elems ↔
      a.size_ = b.size_ ∧ ∀ i, i < a.size_ → a.items_[i]? = b.items_[i]? := by
  constructor
  · intro h
    have hsz : a.size_ = b.size_ := by
      rw [← length_elems a ha, ← length_elems b hb, h]
    refine ⟨hsz, fun i hi => ?_⟩
    have h1 : a.elems[i]? = b.elems[i]? := by rw [h]
    simp only [elems, List.getElem?_take] at h1
    rw [if_pos hi, if_pos (by omega)] at h1
    exact h1
  · rintro ⟨hsz, h⟩
    apply List.ext_getElem?
    intro i
    simp only [elems, List.getElem?_take, ← hsz]
    by_cases hi : i < a.size_
    · simp only [hi, if_true]
      exact h i hi
    · simp only [hi, if_false]

end SimpleVector

/-! ## The constructors in closed form -/

namespace SimpleVector

variable {α : Type}

/-- Constructor `SimpleVector(size, value)` when the allocation it may need succeeds. -/
theorem ctor_size_value_eq (heap : Heap α) (size : Nat) (value : α)
    (halloc : size ≠ 0 → heap size ≠ none) :
    ctor_size_value heap size value
      = .ok { items_ := List.replicate size value, size_ := size, capacity_ := size } := by
  by_cases h0 : size = 0
  · subst h0
    simp [ctor_size_value]
  · obtain ⟨init, hinit⟩ := Option.ne_none_iff_exists'.mp (halloc h0)
    simp only [ctor_size_value, ne_eq, h0, not_false_eq_true, if_true,
      ArrayPtr.create_of_some heap size init h0 hinit]
    rw [stdFill_eq _ _ _ _ (Nat.zero_le _) (by simp)]
    rw [List.drop_eq_nil_of_le (by simp)]
    simp

/-- The constructor from an initializer list when the allocation it may need
succeeds. -/
theorem ctor_init_list_eq [Inhabited α] (heap : Heap α) (init : List α)
    (halloc : init.length ≠ 0 → heap init.length ≠ none) :
    ctor_init_list heap init
      = .ok { items_ := init, size_ := init.length, capacity_ := init.length } := by
  simp only [ctor_init_list, ctor_size, ctor_size_value_eq heap init.length default halloc]
  rw [stdCopy_eq _ _ _ (Nat.le_refl _) (by simp)]
  rw [List.drop_eq_nil_of_le (by simp)]
  simp

/-- The copy constructor when the allocation it may need succeeds: its buffer
holds the live elements of `other`, then default values. -/
theorem ctor_copy_eq [Inhabited α] (heap : Heap α) (other : SimpleVector α) (hwf : WF other)
    (halloc : other.capacity_ ≠ 0 → heap other.capacity_ ≠ none) :
    ctor_copy heap other
      = .ok { items_ := other.elems ++
                List.replicate (other.capacity_ - other.size_) default
              size_ := other.size_
              capacity_ := other.capacity_ } := by
  have h1 := hwf.1
  have h2 := hwf.2
  simp only [ctor_copy, ctor_size, ctor_size_value_eq heap other.capacity_ default halloc]
  rw [stdCopy_eq _ _ _ (by omega) (by simp; omega)]
  simp [elems]

/-- The reserving constructor when the allocation it may need succeeds. -/
theorem ctor_reserve_ok (heap : Heap α) (reserve_obj : ReserveProxyObj)
    (halloc : reserve_obj.capacity_ ≠ 0 → heap reserve_obj.capacity_ ≠ none) :
    ∃ items, ctor_reserve heap reserve_obj
      = .ok { items_ := items, size_ := 0, capacity_ := reserve_obj.capacity_ } ∧
      items.length = reserve_obj.capacity_ := by
  by_cases h0 : reserve_obj.capacity_ = 0
  · refine ⟨[], ?_, by simp [h0]⟩
    unfold ctor_reserve
    rw [Reserve_noop heap {} reserve_obj.capacity_ (by simp [h0])]
    simp [h0]
  · obtain ⟨init, hinit⟩ := Option.ne_none_iff_exists'.mp (halloc h0)
    refine ⟨(List.range reserve_obj.capacity_).map init, ?_, by simp⟩
    have hwf : WF ({} : SimpleVector α) := by simp [WF]
    unfold ctor_reserve
    rw [Reserve_grow heap {} reserve_obj.capacity_ hwf (by simp; omega) init hinit]
    simp

end SimpleVector

/-! ## Facts about the container in memory -/

theorem Store.write_other {α : Type} (st : Store α) (p : Option Nat) (buf : List α) (q : Nat)
    (h : p ≠ some q) : (st.write p buf) q = st q := by
  cases p with
  | none => rfl
  | some a =>
    have hne : q ≠ a := fun e => h (by rw [e])
    simp [Store.write, Function.update_noteq hne]

theorem Store.release_other {α : Type} (st : Store α) (p : Option Nat) (q : Nat)
    (h : p ≠ some q) : (st.release p) q = st q := by
  cases p with
  | none => rfl
  | some a =>
    have hne : q ≠ a := fun e => h (by rw [e])
    simp [Store.release, Function.update_noteq hne]

theorem Store.read_write {α : Type} (st : Store α) (a : Nat) (buf : List α) :
    (st.write (some a) buf).read (some a) = buf := by
  simp [Store.write, Store.read]

/-- A pointer that is not `q` reads the same slots from two stores that agree
outside `q`; so does any pointer when they agree at `q` too. -/
theorem Store.read_congr {α : Type} (st st' : Store α) (p : Option Nat)
    (h : ∀ a, p = some a → st' a = st a) : st'.read p = st.read p := by
  cases p with
  | none => rfl
  | some a => simp [Store.read, h a rfl]

/-- An allocation leaves the buffer allocated at `q` as it is, and does not
return a pointer to it, when `operator new[]` does not hand out the address
`q` while a buffer is allocated there. -/
theorem ArrayPtr.create_at_other {α : Type} (heap : Heap α) (place : Store α → Nat)
    (st st' : Store α) (size : Nat) (p : Option Nat)
    (q : Nat) (hplace : ∀ st : Store α, st q ≠ none → place st ≠ q) (hq : st q ≠ none)
    (h : ArrayPtr.create_at heap place st size = .ok (st', p)) :
    st' q = st q ∧ p ≠ some q := by
  unfold ArrayPtr.create_at at h
  have hne : q ≠ place st := fun e => hplace st hq e.symm
  split at h
  · simp only [Except.ok.injEq, Prod.mk.injEq] at h
    rw [← h.1, ← h.2]
    exact ⟨rfl, by simp⟩
  · split at h
    · simp at h
    · simp only [Except.ok.injEq, Prod.mk.injEq] at h
      rw [← h.1, ← h.2]
      refine ⟨Function.update_noteq hne _ _, ?_⟩
      intro e
      simp only [Option.some.injEq] at e
      exact hne e.symm

namespace Layout

variable {α : Type}

/-- Member `Resize` on an object leaves a buffer the object does not point to as it
is, and does not make the object point to it. -/
theorem Resize_other [Inhabited α] (heap : Heap α) (place : Store α → Nat)
    (st : Store α) (self : Layout) (new_size : Nat)
    (q : Nat) (hplace : ∀ st : Store α, st q ≠ none → place st ≠ q) (hq : st q ≠ none)
    (hne : self.items_ ≠ some q) :
    (Resize heap place st self new_size).1 q = st q ∧
    (Resize heap place st self new_size).2.1.items_ ≠ some q := by
  unfold Resize
  by_cases c1 : new_size ≤ self.size_
  · rw [if_pos c1]
    exact ⟨rfl, hne⟩
  · by_cases c2 : new_size ≤ self.capacity_
    · rw [if_neg c1, if_pos c2]
      exact ⟨Store.write_other _ _ _ _ hne, hne⟩
    · rw [if_neg c1, if_neg c2]
      simp only
      split
      · exact ⟨rfl, hne⟩
      · rename_i st1 tmp heq
        obtain ⟨h1, h2⟩ := ArrayPtr.create_at_other heap place st st1 _ tmp q hplace hq heq
        simp only
        refine ⟨?_, h2⟩
        rw [Store.release_other _ _ _ hne, Store.write_other _ _ _ _ h2,
          Store.write_other _ _ _ _ h2, h1]

/-- Member `PushBack` on an object leaves a buffer the object does not point to as it
is, and does not make the object point to it. -/
theorem PushBack_other [Inhabited α] (heap : Heap α) (place : Store α → Nat)
    (st : Store α) (self : Layout) (item : α)
    (q : Nat) (hplace : ∀ st : Store α, st q ≠ none → place st ≠ q) (hq : st q ≠ none)
    (hne : self.items_ ≠ some q) :
    (PushBack heap place st self item).1 q = st q ∧
    (PushBack heap place st self item).2.1.items_ ≠ some q := by
  have hr := Resize_other heap place st self (self.size_ + 1) q hplace hq hne
  unfold PushBack
  split
  · exact ⟨Store.write_other _ _ _ _ hne, hne⟩
  · split
    · rename_i st1 self1 e heq
      rw [heq] at hr
      exact hr
    · rename_i st1 self1 u heq
      rw [heq] at hr
      exact ⟨by simp only; rw [Store.write_other _ _ _ _ hr.2]; exact hr.1, hr.2⟩

/-- Member `Insert` on an object leaves a buffer the object does not point to as it
is, and does not make the object point to it. -/
theorem Insert_other [Inhabited α] (heap : Heap α) (place : Store α → Nat)
    (st : Store α) (self : Layout) (pos : Nat)
    (value : α) (q : Nat) (hplace : ∀ st : Store α, st q ≠ none → place st ≠ q)
    (hq : st q ≠ none) (hne : self.items_ ≠ some q) :
    (Insert heap place st self pos value).1 q = st q ∧
    (Insert heap place st self pos value).2.1.items_ ≠ some q := by
  have hr := Resize_other heap place st self (self.size_ + 1) q hplace hq hne
  unfold Insert
  simp only
  split
  · rename_i st1 self1 e heq
    rw [heq] at hr
    exact hr
  · rename_i st1 self1 u heq
    rw [heq] at hr
    refine ⟨?_, hr.2⟩
    simp only
    rw [Store.write_other _ _ _ _ hr.2, Store.write_other _ _ _ _ hr.2]
    exact hr.1

/-- The moving `Insert` on an object leaves a buffer the object does not point
to as it is, and does not make the object point to it. -/
theorem Insert_move_other [Inhabited α] (mv : α → α) (heap : Heap α) (place : Store α → Nat)
    (st : Store α) (self : Layout) (pos : Nat)
    (value : α) (q : Nat) (hplace : ∀ st : Store α, st q ≠ none → place st ≠ q)
    (hq : st q ≠ none) (hne : self.items_ ≠ some q) :
    (Insert_move mv heap place st self pos value).1 q = st q ∧
    (Insert_move mv heap place st self pos value).2.1.items_ ≠ some q := by
  have hr := Resize_other heap place st self (self.size_ + 1) q hplace hq hne
  unfold Insert_move
  simp only
  split
  · rename_i st1 self1 e heq
    rw [heq] at hr
    exact hr
  · rename_i st1 self1 u heq
    rw [heq] at hr
    refine ⟨?_, hr.2⟩
    simp only
    rw [Store.write_other _ _ _ _ hr.2, Store.write_other _ _ _ _ hr.2]
    exact hr.1

/-- A mutating call on an object leaves a buffer the object does not point to
as it is, and does not make the object point to it. -/
theorem mutate_other [Inhabited α] (mv : α → α) (heap : Heap α) (place : Store α → Nat)
    (st : Store α) (self : Layout) (m : Mutation α)
    (q : Nat) (hplace : ∀ st : Store α, st q ≠ none → place st ≠ q) (hq : st q ≠ none)
    (hne : self.items_ ≠ some q) :
    (mutate mv heap place st self m).1 q = st q ∧
    (mutate mv heap place st self m).2.items_ ≠ some q := by
  cases m with
  | pushBack item => exact PushBack_other heap place st self item q hplace hq hne
  | insert pos value => exact Insert_other heap place st self pos value q hplace hq hne
  | insertMove pos value =>
    exact Insert_move_other mv heap place st self pos value q hplace hq hne
  | erase pos => exact ⟨Store.write_other _ _ _ _ hne, hne⟩
  | resize new_size => exact Resize_other heap place st self new_size q hplace hq hne
  | assignIndex index value => exact ⟨Store.write_other _ _ _ _ hne, hne⟩

/-- A run of mutating calls on an object leaves a buffer the object does not
point to as it is. -/
theorem mutate_all_other [Inhabited α] (mv : α → α) (heap : Heap α) (place : Store α → Nat)
    (st : Store α) (self : Layout)
    (ms : List (Mutation α)) (q : Nat) (hplace : ∀ st : Store α, st q ≠ none → place st ≠ q)
    (hq : st q ≠ none) (hne : self.items_ ≠ some q) :
    (mutate_all mv heap place st self ms).1 q = st q := by
  induction ms generalizing st self with
  | nil => rfl
  | cons m ms ih =>
    obtain ⟨h1, h2⟩ := mutate_other mv heap place st self m q hplace hq hne
    simp only [mutate_all]
    rw [ih _ _ (by rw [h1]; exact hq) h2, h1]

end Layout

theorem stdCopy_nil {α : Type} (src : List α) (first last d_first : Nat) :
    stdCopy src first last [] d_first = [] := by
  apply List.eq_nil_of_length_eq_zero
  simp [stdCopy, length_copyN]

namespace Layout

variable {α : Type}

/-- The copy constructor in the store, when the allocation it may need
succeeds and does not hand out the address of the buffer of `other`: it
returns, the container it builds is the one the constructor builds on values,
the store is as before except at the address allocated, and the new object
points there or nowhere. -/
theorem ctor_copy_ok [Inhabited α] (heap : Heap α) (place : Store α → Nat)
    (st : Store α) (other : Layout) (hother : other.items_ ≠ some (place st))
    (halloc : other.capacity_ ≠ 0 → heap other.capacity_ ≠ none) :
    ∃ st1 copy, ctor_copy heap place st other = .ok (st1, copy) ∧
      SimpleVector.ctor_copy heap (other.load st) = .ok (copy.load st1) ∧
      (∀ q, q ≠ place st → st1 q = st q) ∧
      (copy.items_ = none ∨ copy.items_ = some (place st)) := by
  by_cases h0 : other.capacity_ = 0
  · refine ⟨st, Layout.mk none other.size_ 0, ?_, ?_, fun _ _ => rfl, Or.inl rfl⟩
    · simp [ctor_copy, ctor_size_value, h0, Store.write]
    · simp [SimpleVector.ctor_copy, SimpleVector.ctor_size, SimpleVector.ctor_size_value,
        load, h0, stdCopy_nil, Store.read]
  · obtain ⟨init, hinit⟩ := Option.ne_none_iff_exists'.mp (halloc h0)
    have hread : ∀ b : List α,
        Store.read (Function.update st (place st) (some b)) other.items_
          = Store.read st other.items_ := by
      intro b
      apply Store.read_congr
      intro a ha
      have hne : a ≠ place st := fun e => hother (by rw [ha, e])
      exact Function.update_noteq hne _ _
    refine ⟨Function.update st (place st)
        (some (stdCopy (st.read other.items_) 0 other.size_
          (stdFill (List.map init (List.range other.capacity_)) 0 other.capacity_ default) 0)),
      Layout.mk (some (place st)) other.size_ other.capacity_, ?_, ?_,
      fun q hq => Function.update_noteq hq _ _, Or.inr rfl⟩
    · simp only [ctor_copy, ctor_size_value, ArrayPtr.create_at, h0, hinit, ne_eq,
        not_false_eq_true, if_true, if_false, Store.write, Function.update_idem]
      simp only [Store.read, Function.update_same, Option.getD_some]
      have h := hread (stdFill (List.map init (List.range other.capacity_)) 0
        other.capacity_ default)
      simp only [Store.read] at h
      rw [h]
    · simp only [SimpleVector.ctor_copy, SimpleVector.ctor_size,
        SimpleVector.ctor_size_value, ArrayPtr.create, load, h0, hinit, ne_eq,
        not_false_eq_true, if_true, if_false, Store.read,
        Function.update_same, Option.getD_some]

end Layout

/-! ## The claims (continued) -/

namespace SimpleVector

variable {α : Type}

/-- C11 as amended.  For two distinct containers `a` and `b`, the move
assignment `a = std::move(b)` first tests `b == a`.  When that does not hold,
`a` takes the length, the capacity and the live elements of `b`, and `b` is
left with length 0 and capacity 0.  When it holds, the assignment returns at
once and both containers are as they were. -/
theorem assign_move_postcondition (lt : α → α → Bool) (a b : SimpleVector α) :
    (op_eq lt b a = false →
      (assign_move lt a b).1.size_ = b.size_ ∧
      (assign_move lt a b).1.capacity_ = b.capacity_ ∧
      (assign_move lt a b).1.elems = b.elems ∧
      (assign_move lt a b).2.size_ = 0 ∧
      (assign_move lt a b).2.capacity_ = 0) ∧
    (op_eq lt b a = true → assign_move lt a b = (a, b)) := by
  constructor
  · intro h
    simp [assign_move, h, elems]
  · intro h
    simp only [assign_move, h, if_true]

/-- What `assign_move_postcondition` gives for `a` holding 1, 2 and `b`
holding 3 with capacity 4, and for `a` holding 1 and `b` holding 1 with
capacity 4. -/
theorem assign_move_postcondition_witness :
    op_eq natLess { items_ := [3, 0, 0, 0], size_ := 1, capacity_ := 4 }
      { items_ := [1, 2], size_ := 2, capacity_ := 2 } = false ∧
    (assign_move natLess { items_ := [1, 2], size_ := 2, capacity_ := 2 }
      { items_ := [3, 0, 0, 0], size_ := 1, capacity_ := 4 }).1.capacity_ = 4 ∧
    (assign_move natLess { items_ := [1, 2], size_ := 2, capacity_ := 2 }
      { items_ := [3, 0, 0, 0], size_ := 1, capacity_ := 4 }).2.capacity_ = 0 ∧
    op_eq natLess { items_ := [1, 0, 0, 0], size_ := 1, capacity_ := 4 }
      { items_ := [1], size_ := 1, capacity_ := 1 } = true ∧
    assign_move natLess { items_ := [1], size_ := 1, capacity_ := 1 }
      { items_ := [1, 0, 0, 0], size_ := 1, capacity_ := 4 }
      = ({ items_ := [1], size_ := 1, capacity_ := 1 },
         { items_ := [1, 0, 0, 0], size_ := 1, capacity_ := 4 }) :=
  ⟨by decide,
   ((assign_move_postcondition natLess { items_ := [1, 2], size_ := 2, capacity_ := 2 }
      { items_ := [3, 0, 0, 0], size_ := 1, capacity_ := 4 }).1 (by decide)).2.1,
   ((assign_move_postcondition natLess { items_ := [1, 2], size_ := 2, capacity_ := 2 }
      { items_ := [3, 0, 0, 0], size_ := 1, capacity_ := 4 }).1 (by decide)).2.2.2.2,
   by decide,
   (assign_move_postcondition natLess { items_ := [1], size_ := 1, capacity_ := 1 }
      { items_ := [1, 0, 0, 0], size_ := 1, capacity_ := 4 }).2 (by decide)⟩

/-- C11 as stated fails.  Two distinct containers with equal live elements:
`a` holds 1 with capacity 1, and `b`, built by `Reserve(4)` and `PushBack(1)`,
holds 1 with capacity 4.  After `a = std::move(b)` it is not the case that `a`
has the length, capacity and elements of `b` and `b` is empty: `a` still has
capacity 1 and `b` still has length 1 and capacity 4. -/
theorem assign_move_equal_contents_counterexample :
    (PushBack_all (heapOf 0) ctor_default [1]).1
      = { items_ := [1], size_ := 1, capacity_ := 1 } ∧
    (PushBack_all (heapOf 0) (Reserve (heapOf 0) ctor_default 4).1 [1]).1
      = { items_ := [1, 0, 0, 0], size_ := 1, capacity_ := 4 } ∧
    ¬ ((assign_move natLess { items_ := [1], size_ := 1, capacity_ := 1 }
          { items_ := [1, 0, 0, 0], size_ := 1, capacity_ := 4 }).1.size_ = 1 ∧
       (assign_move natLess { items_ := [1], size_ := 1, capacity_ := 1 }
          { items_ := [1, 0, 0, 0], size_ := 1, capacity_ := 4 }).1.capacity_ = 4 ∧
       (assign_move natLess { items_ := [1], size_ := 1, capacity_ := 1 }
          { items_ := [1, 0, 0, 0], size_ := 1, capacity_ := 4 }).1.elems = [1] ∧
       (assign_move natLess { items_ := [1], size_ := 1, capacity_ := 1 }
          { items_ := [1, 0, 0, 0], size_ := 1, capacity_ := 4 }).2.size_ = 0 ∧
       (assign_move natLess { items_ := [1], size_ := 1, capacity_ := 1 }
          { items_ := [1, 0, 0, 0], size_ := 1, capacity_ := 4 }).2.capacity_ = 0) := by
  decide

/-- C12.  Move construction from a container `c`: the new container has the
length, the capacity, the buffer and so the live elements of `c` in their
order, and `c` is left with length 0, capacity 0 and the null buffer. -/
theorem ctor_move_postcondition (c : SimpleVector α) :
    (ctor_move c).1.size_ = c.size_ ∧
    (ctor_move c).1.capacity_ = c.capacity_ ∧
    (ctor_move c).1.elems = c.elems ∧
    (ctor_move c).2.size_ = 0 ∧
    (ctor_move c).2.capacity_ = 0 ∧
    (ctor_move c).2.items_ = [] :=
  ⟨rfl, rfl, rfl, rfl, rfl, rfl⟩

/-- The copy constructor when its allocation fails. -/
theorem ctor_copy_fail [Inhabited α] (heap : Heap α) (other : SimpleVector α)
    (h0 : other.capacity_ ≠ 0) (halloc : heap other.capacity_ = none) :
    ctor_copy heap other = .error .bad_alloc := by
  simp [ctor_copy, ctor_size, ctor_size_value, ArrayPtr.create, h0, halloc]

/-- C14.  Assigning a well-formed container to itself leaves its length, its
capacity and its live elements as they were.  For copy assignment this holds
whatever `<` is and whether or not an allocation it makes succeeds.  For an
element type whose `<` is irreflexive, both assignments return at once: the
copy assignment allocates nothing, and the move assignment leaves the whole
object as it was, whatever the buffer class does when moved onto itself. -/
theorem self_assignment_unchanged [Inhabited α] (lt : α → α → Bool) (heap : Heap α)
    (selfmove : List α → List α) (v : SimpleVector α) (hwf : WF v) :
    ((assign_copy lt heap v v).1.size_ = v.size_ ∧
      (assign_copy lt heap v v).1.capacity_ = v.capacity_ ∧
      (assign_copy lt heap v v).1.elems = v.elems) ∧
    ((∀ a, lt a a = false) →
      assign_copy lt heap v v = (v, .ok ()) ∧
      assign_move_self lt selfmove v = v ∧
      (assign_move_self lt selfmove v).size_ = v.size_ ∧
      (assign_move_self lt selfmove v).capacity_ = v.capacity_ ∧
      (assign_move_self lt selfmove v).elems = v.elems) := by
  constructor
  · unfold assign_copy
    split
    · exact ⟨rfl, rfl, rfl⟩
    · by_cases hal : v.capacity_ ≠ 0 → heap v.capacity_ ≠ none
      · rw [ctor_copy_eq heap v hwf hal]
        refine ⟨rfl, rfl, ?_⟩
        have hlen := length_elems v hwf
        simp only [swap, elems] at hlen ⊢
        rw [List.take_left' hlen]
      · have h0 : v.capacity_ ≠ 0 := fun e => hal (fun h => absurd e h)
        have hn : heap v.capacity_ = none := by
          by_contra hne
          exact hal (fun _ => hne)
        rw [ctor_copy_fail heap v h0 hn]
        exact ⟨rfl, rfl, rfl⟩
  · intro hirr
    have h := op_eq_self lt hirr v
    have hm : assign_move_self lt selfmove v = v := by
      simp only [assign_move_self, h, if_true]
    refine ⟨?_, hm, ?_, ?_, ?_⟩
    · simp only [assign_copy, h, if_true]
    · rw [hm]
    · rw [hm]
    · rw [hm]

/-- What `self_assignment_unchanged` gives for the container 1, 2, 3 of
capacity 4, with an allocation service that fails and a buffer class that
drops a buffer moved onto itself. -/
theorem self_assignment_unchanged_witness :
    WF ({ items_ := [1, 2, 3, 0], size_ := 3, capacity_ := 4 } : SimpleVector Nat) ∧
    (∀ a, natLess a a = false) ∧
    assign_copy natLess heapFail { items_ := [1, 2, 3, 0], size_ := 3, capacity_ := 4 }
        { items_ := [1, 2, 3, 0], size_ := 3, capacity_ := 4 }
      = ({ items_ := [1, 2, 3, 0], size_ := 3, capacity_ := 4 }, .ok ()) ∧
    assign_move_self natLess (fun _ => [])
        { items_ := [1, 2, 3, 0], size_ := 3, capacity_ := 4 }
      = { items_ := [1, 2, 3, 0], size_ := 3, capacity_ := 4 } :=
  ⟨by decide, fun a => by simp [natLess],
   ((self_assignment_unchanged natLess heapFail (fun _ => [])
      { items_ := [1, 2, 3, 0], size_ := 3, capacity_ := 4 } (by decide)).2
      (fun a => by simp [natLess])).1,
   ((self_assignment_unchanged natLess heapFail (fun _ => [])
      { items_ := [1, 2, 3, 0], size_ := 3, capacity_ := 4 } (by decide)).2
      (fun a => by simp [natLess])).2.1⟩

/-- When its `Resize` call returns, `Insert` returns the position it was
given. -/
theorem Insert_result [Inhabited α] (heap : Heap α) (self : SimpleVector α) (pos : Nat)
    (value : α) (h : (Resize heap self (self.size_ + 1)).2 = .ok ()) :
    (Insert heap self pos value).2 = .ok pos := by
  unfold Insert
  simp only
  split
  · rename_i s e heq
    rw [heq] at h
    cases h
  · rfl

/-- When its `Resize` call returns, the moving `Insert` returns the position
it was given. -/
theorem Insert_move_result [Inhabited α] (mv : α → α) (heap : Heap α) (self : SimpleVector α)
    (pos : Nat) (value : α) (h : (Resize heap self (self.size_ + 1)).2 = .ok ()) :
    (Insert_move mv heap self pos value).2 = .ok pos := by
  unfold Insert_move
  simp only
  split
  · rename_i s e heq
    rw [heq] at h
    cases h
  · rfl

/-- C18.  On a well-formed container and a position up to the length, when
the allocation a growth needs succeeds, `Insert` (either overload) returns the
position, and the capacity after it is: the capacity before when a slot was
free; twice the capacity when the container was full and the capacity
positive; and 1 when length and capacity were both 0. -/
theorem Insert_capacity [Inhabited α] (mv : α → α) (heap : Heap α) (self : SimpleVector α)
    (pos : Nat) (value : α) (hwf : WF self)
    (halloc : ¬ self.size_ < self.capacity_ →
      heap (max (self.size_ + 1) (self.capacity_ * 2)) ≠ none) :
    pos ≤ self.size_ →
      (Insert heap self pos value).2 = .ok pos ∧
      (Insert_move mv heap self pos value).2 = .ok pos ∧
      (Insert_move mv heap self pos value).1.capacity_
        = (Insert heap self pos value).1.capacity_ ∧
      (self.size_ < self.capacity_ →
        (Insert heap self pos value).1.capacity_ = self.capacity_) ∧
      (self.size_ = self.capacity_ → 0 < self.capacity_ →
        (Insert heap self pos value).1.capacity_ = 2 * self.capacity_) ∧
      (self.size_ = self.capacity_ → self.capacity_ = 0 →
        (Insert heap self pos value).1.capacity_ = 1) := by
  intro _
  have h1 := hwf.1
  have h2 := hwf.2
  obtain ⟨-, e2⟩ := Insert_size_capacity heap self pos value
  obtain ⟨-, e4⟩ := Insert_move_size_capacity mv heap self pos value
  have hres : (Resize heap self (self.size_ + 1)).2 = .ok () ∧
      (self.size_ < self.capacity_ →
        (Resize heap self (self.size_ + 1)).1.capacity_ = self.capacity_) ∧
      (¬ self.size_ < self.capacity_ →
        (Resize heap self (self.size_ + 1)).1.capacity_
          = max (self.size_ + 1) (self.capacity_ * 2)) := by
    by_cases c : self.size_ < self.capacity_
    · rw [Resize_within heap self _ hwf (by omega) (by omega)]
      exact ⟨rfl, fun _ => rfl, fun h => absurd c h⟩
    · obtain ⟨init, hinit⟩ := Option.ne_none_iff_exists'.mp (halloc c)
      rw [Resize_grow heap self _ hwf (by omega) init hinit]
      exact ⟨rfl, fun h => absurd h c, fun _ => rfl⟩
  obtain ⟨r1, r2, r3⟩ := hres
  refine ⟨Insert_result heap self pos value r1, Insert_move_result mv heap self pos value r1,
    by rw [e2, e4], ?_, ?_, ?_⟩
  · intro c
    rw [e2, r2 c]
  · intro c hpos
    rw [e2, r3 (by omega)]
    omega
  · intro c h0
    rw [e2, r3 (by omega)]
    omega

/-- What `Insert_capacity` gives for an `Insert` into the empty container, into
the full container 1, 2 and into 1, 2, 3 of capacity 4. -/
theorem Insert_capacity_witness :
    WF (ctor_default : SimpleVector Nat) ∧
    (Insert (heapOf 0) ctor_default 0 5).1.capacity_ = 1 ∧
    WF ({ items_ := [1, 2], size_ := 2, capacity_ := 2 } : SimpleVector Nat) ∧
    (Insert (heapOf 0) { items_ := [1, 2], size_ := 2, capacity_ := 2 } 2 5).1.capacity_
      = 2 * 2 ∧
    WF ({ items_ := [1, 2, 3, 0], size_ := 3, capacity_ := 4 } : SimpleVector Nat) ∧
    (Insert (heapOf 0) { items_ := [1, 2, 3, 0], size_ := 3, capacity_ := 4 } 3 5).1.capacity_
      = 4 :=
  ⟨by decide,
   ((Insert_capacity id (heapOf 0) ctor_default 0 5 (by decide)
      (fun _ => by simp [heapOf])) (by decide)).2.2.2.2.2 rfl rfl,
   by decide,
   ((Insert_capacity id (heapOf 0) { items_ := [1, 2], size_ := 2, capacity_ := 2 } 2 5
      (by decide) (fun _ => by simp [heapOf])) (by decide)).2.2.2.2.1 rfl (by decide),
   by decide,
   ((Insert_capacity id (heapOf 0) { items_ := [1, 2, 3, 0], size_ := 3, capacity_ := 4 } 3 5
      (by decide) (fun _ => by simp [heapOf])) (by decide)).2.2.2.1 (by decide)⟩

end SimpleVector

/-- C13.  With containers laid out in a store, take an object `other` whose
buffer is allocated and stands for a well-formed container, an `operator
new[]` that does not hand out the address of that buffer while it is
allocated, and let the allocation of the copy succeed.  Then the copy
constructor returns; the container it builds is the one the constructor builds
on values and has the capacity, the length and the live elements of `other`;
the container `other` stands for is unchanged by the copy; and it is still
unchanged after any run of `PushBack`, `Insert` (either overload), `Erase`,
`Resize` and element assignments on the copy, whether those return or
throw. -/
theorem ctor_copy_postcondition {α : Type} [Inhabited α] (mv : α → α) (heap : Heap α)
    (place : Store α → Nat) (st : Store α) (other : Layout)
    (hwf : SimpleVector.WF (other.load st))
    (hlive : ∀ q, other.items_ = some q → st q ≠ none)
    (hplace : ∀ q, other.items_ = some q → ∀ st' : Store α, st' q ≠ none → place st' ≠ q)
    (halloc : other.capacity_ ≠ 0 → heap other.capacity_ ≠ none)
    (ms : List (Mutation α)) :
    ∃ st1 copy,
      Layout.ctor_copy heap place st other = .ok (st1, copy) ∧
      SimpleVector.ctor_copy heap (other.load st) = .ok (copy.load st1) ∧
      (copy.load st1).capacity_ = (other.load st).capacity_ ∧
      (copy.load st1).size_ = (other.load st).size_ ∧
      (copy.load st1).elems = (other.load st).elems ∧
      other.load st1 = other.load st ∧
      other.load (Layout.mutate_all mv heap place st1 copy ms).1 = other.load st := by
  have hother : other.items_ ≠ some (place st) :=
    fun e => hplace _ e st (hlive _ e) rfl
  obtain ⟨st1, copy, h1, h2, h3, h4⟩ := Layout.ctor_copy_ok heap place st other hother halloc
  have hv := SimpleVector.ctor_copy_eq heap (other.load st) hwf halloc
  rw [hv] at h2
  simp only [Except.ok.injEq] at h2
  have hagree : ∀ a, other.items_ = some a → st1 a = st a := by
    intro a ha
    exact h3 a (fun e => hother (by rw [ha, e]))
  have hload : other.load st1 = other.load st := by
    simp only [Layout.load]
    rw [Store.read_congr st st1 other.items_ hagree]
  refine ⟨st1, copy, h1, by rw [hv, h2], ?_, ?_, ?_, hload, ?_⟩
  · rw [← h2]
  · rw [← h2]
  · rw [← h2]
    have hlen := SimpleVector.length_elems (other.load st) hwf
    simp only [SimpleVector.elems] at hlen ⊢
    rw [List.take_left' hlen]
  · simp only [Layout.load]
    congr 1
    apply Store.read_congr
    intro q hq
    have hq1 : st1 q ≠ none := by
      rw [hagree q hq]
      exact hlive q hq
    have hne : copy.items_ ≠ some q := by
      rcases h4 with h | h
      · rw [h]; simp
      · rw [h]
        intro e
        simp only [Option.some.injEq] at e
        exact hother (by rw [hq, e])
    rw [Layout.mutate_all_other mv heap place st1 copy ms q (hplace q hq) hq1 hne]
    exact hagree q hq

/-- What `ctor_copy_postcondition` gives for the container 1, 2, 3 of capacity 4
whose buffer is at address 1: the copy holds 1, 2, 3, and the original is as it
was after a `PushBack`, an `Erase` and an element assignment on the copy. -/
theorem ctor_copy_postcondition_witness :
    SimpleVector.WF
      (Layout.load storeOne { items_ := some 1, size_ := 3, capacity_ := 4 }) ∧
    (∃ st1 copy,
      Layout.ctor_copy (heapOf 0) placeLowest storeOne
        { items_ := some 1, size_ := 3, capacity_ := 4 } = .ok (st1, copy) ∧
      (copy.load st1).elems = [1, 2, 3] ∧
      (Layout.load (Layout.mutate_all id (heapOf 0) placeLowest st1 copy
          [.pushBack 9, .pushBack 8, .erase 0, .assignIndex 0 7]).1
        { items_ := some 1, size_ := 3, capacity_ := 4 }).elems = [1, 2, 3]) := by
  refine ⟨by decide, ?_⟩
  obtain ⟨st1, copy, h1, -, -, -, h5, -, h7⟩ :=
    ctor_copy_postcondition id (heapOf 0) placeLowest storeOne
      { items_ := some 1, size_ := 3, capacity_ := 4 } (by decide)
      (by
        intro q hq
        simp only [Option.some.injEq] at hq
        subst hq
        simp [storeOne])
      (by
        intro q hq st' hst'
        simp only [Option.some.injEq] at hq
        subst hq
        unfold placeLowest
        cases h : st' 1 with
        | none => exact absurd h hst'
        | some b =>
          simp only [Option.isNone_some, Bool.false_eq_true, if_false]
          split <;> omega)
      (fun _ => by simp [heapOf])
      [.pushBack 9, .pushBack 8, .erase 0, .assignIndex 0 7]
  exact ⟨st1, copy, h1, h5, by rw [h7]; rfl⟩

theorem natLess_strictTotal : StrictTotal natLess := by
  refine ⟨⟨?_, ?_⟩, ?_⟩
  · intro a
    simp [natLess]
  · intro a b c h1 h2
    simp only [natLess, decide_eq_true_eq] at h1 h2 ⊢
    omega
  · intro a b hne
    simp only [natLess, decide_eq_true_eq]
    omega

theorem nanLess_strictPartial : StrictPartial nanLess := by
  refine ⟨?_, ?_⟩
  · intro a
    cases a <;> simp [nanLess]
  · intro a b c h1 h2
    cases a <;> cases b <;> cases c <;> simp [nanLess] at h1 h2 ⊢
    omega

namespace SimpleVector

variable {α : Type}

/-- C15.  For an element type whose `<` is a strict total order, `a == b`
holds exactly when the two containers have the same live elements, which for
well-formed containers is: the same length and equal slots at every index
below it.  Neither the capacities nor the slots past the length enter.  And
`a != b` is the negation of `a == b`. -/
theorem op_eq_iff (lt : α → α → Bool) (hlt : StrictTotal lt) (a b : SimpleVector α)
    (ha : WF a) (hb : WF b) :
    (op_eq lt a b = true ↔ a.elems = b.elems) ∧
    (op_eq lt a b = true ↔
      a.size_ = b.size_ ∧ ∀ i, i < a.size_ → a.items_[i]? = b.items_[i]?) ∧
    op_ne lt a b = !op_eq lt a b := by
  have hmain : op_eq lt a b = true ↔ a.elems = b.elems := by
    rw [op_eq_true_iff]
    constructor
    · rintro ⟨h1, h2⟩
      exact eq_of_lexicographical_compare_false lt hlt.2 _ _ h2 h1
    · intro h
      rw [h]
      exact ⟨lexicographical_compare_self lt hlt.1.1 _,
        lexicographical_compare_self lt hlt.1.1 _⟩
  refine ⟨hmain, ?_, ?_⟩
  · rw [hmain]
    exact elems_eq_iff a b ha hb
  · simp [op_eq]

/-- What `op_eq_iff` gives for two containers holding 1, 2 with different
capacities and different slots past the length, and for 1, 2 against 1, 3. -/
theorem op_eq_iff_witness :
    StrictTotal natLess ∧
    WF ({ items_ := [1, 2], size_ := 2, capacity_ := 2 } : SimpleVector Nat) ∧
    WF ({ items_ := [1, 2, 7, 8], size_ := 2, capacity_ := 4 } : SimpleVector Nat) ∧
    op_eq natLess { items_ := [1, 2], size_ := 2, capacity_ := 2 }
      { items_ := [1, 2, 7, 8], size_ := 2, capacity_ := 4 } = true ∧
    ¬ op_eq natLess { items_ := [1, 2], size_ := 2, capacity_ := 2 }
      { items_ := [1, 3], size_ := 2, capacity_ := 2 } = true :=
  ⟨natLess_strictTotal, by decide, by decide,
   (op_eq_iff natLess natLess_strictTotal { items_ := [1, 2], size_ := 2, capacity_ := 2 }
      { items_ := [1, 2, 7, 8], size_ := 2, capacity_ := 4 } (by decide) (by decide)).1.mpr
      (by decide),
   fun h => absurd
     ((op_eq_iff natLess natLess_strictTotal { items_ := [1, 2], size_ := 2, capacity_ := 2 }
        { items_ := [1, 3], size_ := 2, capacity_ := 2 } (by decide) (by decide)).1.mp h)
     (by decide)⟩

/-- C16.  For an element type whose `<` is a strict total order, `a < b` holds
exactly when the live elements of `a` are a proper prefix of those of `b`, or
the two sequences have a common prefix after which they continue with
different elements of which the one of `a` is the smaller.  And `a > b` is
`b < a`, `a <= b` is the negation of `b < a`, `a >= b` is the negation of
`a < b`. -/
theorem op_lt_iff (lt : α → α → Bool) (hlt : StrictTotal lt) (a b : SimpleVector α) :
    (op_lt lt a b = true ↔
      (∃ t, t ≠ [] ∧ b.elems = a.elems ++ t) ∨
      (∃ pre x y s t, a.elems = pre ++ x :: s ∧ b.elems = pre ++ y :: t ∧
        x ≠ y ∧ lt x y = true)) ∧
    op_gt lt a b = op_lt lt b a ∧
    op_le lt a b = !op_lt lt b a ∧
    op_ge lt a b = !op_lt lt a b :=
  ⟨lexicographical_compare_iff lt hlt.1.1 hlt.2 a.elems b.elems, rfl, rfl, rfl⟩

/-- The scenario of the specification: 1, 2, 3 is less than 1, 2, 4 (they
differ at index 2, where 3 < 4), and 1, 2 is less than 1, 2, 3 (a proper
prefix). -/
theorem op_lt_iff_witness :
    StrictTotal natLess ∧
    op_lt natLess { items_ := [1, 2, 3], size_ := 3, capacity_ := 3 }
      { items_ := [1, 2, 4], size_ := 3, capacity_ := 3 } = true ∧
    op_lt natLess { items_ := [1, 2], size_ := 2, capacity_ := 2 }
      { items_ := [1, 2, 3], size_ := 3, capacity_ := 3 } = true :=
  ⟨natLess_strictTotal,
   (op_lt_iff natLess natLess_strictTotal { items_ := [1, 2, 3], size_ := 3, capacity_ := 3 }
      { items_ := [1, 2, 4], size_ := 3, capacity_ := 3 }).1.mpr
      (Or.inr ⟨[1, 2], 3, 4, [], [], rfl, rfl, by decide, rfl⟩),
   (op_lt_iff natLess natLess_strictTotal { items_ := [1, 2], size_ := 2, capacity_ := 2 }
      { items_ := [1, 2, 3], size_ := 3, capacity_ := 3 }).1.mpr
      (Or.inl ⟨[3], by decide, rfl⟩)⟩

/-- C19.  There is an element type whose `<` is a strict partial order with
two distinct incomparable values (numbers and one NaN-like value), and two
well-formed containers of the same length whose live elements differ at an
index, for which `a == b` is true. -/
theorem op_eq_not_elementwise :
    ∃ (β : Type) (lt : β → β → Bool),
      StrictPartial lt ∧
      (∃ x y, x ≠ y ∧ lt x y = false ∧ lt y x = false) ∧
      ∃ a b : SimpleVector β,
        WF a ∧ WF b ∧ a.size_ = b.size_ ∧
        (∃ i, i < a.size_ ∧ a.items_[i]? ≠ b.items_[i]?) ∧
        op_eq lt a b = true ∧ op_ne lt a b = false :=
  ⟨Option Nat, nanLess, nanLess_strictPartial,
   ⟨none, some 1, by decide, rfl, rfl⟩,
   { items_ := [some 1, none], size_ := 2, capacity_ := 2 },
   { items_ := [some 1, some 5], size_ := 2, capacity_ := 2 },
   by decide, by decide, rfl, ⟨1, by decide, by decide⟩, rfl, rfl⟩

end SimpleVector

/-- C17.  When the allocation a constructor may need succeeds, it returns a
container of the requested length whose capacity is at least the length: the
default constructor gives length 0 and capacity 0; the constructor from a size
gives that length and capacity and that many default values; the constructor
from a size and a value gives that length and capacity and that many copies of
the value; the constructor from an initializer list gives length and capacity
equal to the number of items and the items as live elements, in order; and the
constructor from `Reserve(n)` gives length 0 and capacity `n`. -/
theorem constructors_postcondition {α : Type} [Inhabited α] (heap : Heap α) (n : Nat)
    (value : α) (init : List α) (hn : n ≠ 0 → heap n ≠ none)
    (hinit : init.length ≠ 0 → heap init.length ≠ none) :
    ((SimpleVector.ctor_default : SimpleVector α).size_ = 0 ∧
      (SimpleVector.ctor_default : SimpleVector α).capacity_ = 0) ∧
    (∃ v, SimpleVector.ctor_size heap n = .ok v ∧ SimpleVector.WF v ∧
      v.size_ = n ∧ v.capacity_ = n ∧ v.elems = List.replicate n default) ∧
    (∃ v, SimpleVector.ctor_size_value heap n value = .ok v ∧ SimpleVector.WF v ∧
      v.size_ = n ∧ v.capacity_ = n ∧ v.elems = List.replicate n value) ∧
    (∃ v, SimpleVector.ctor_init_list heap init = .ok v ∧ SimpleVector.WF v ∧
      v.size_ = init.length ∧ v.capacity_ = init.length ∧ v.elems = init) ∧
    (∃ v, SimpleVector.ctor_reserve heap (Reserve n) = .ok v ∧ SimpleVector.WF v ∧
      v.size_ = 0 ∧ v.capacity_ = n) := by
  refine ⟨⟨rfl, rfl⟩, ?_, ?_, ?_, ?_⟩
  · refine ⟨_, SimpleVector.ctor_size_value_eq heap n default hn, ?_, rfl, rfl, ?_⟩
    · simp [SimpleVector.WF]
    · simp [SimpleVector.elems]
  · refine ⟨_, SimpleVector.ctor_size_value_eq heap n value hn, ?_, rfl, rfl, ?_⟩
    · simp [SimpleVector.WF]
    · simp [SimpleVector.elems]
  · refine ⟨_, SimpleVector.ctor_init_list_eq heap init hinit, ?_, rfl, rfl, ?_⟩
    · simp [SimpleVector.WF]
    · simp [SimpleVector.elems]
  · obtain ⟨items, h1, h2⟩ := SimpleVector.ctor_reserve_ok heap (Reserve n) hn
    refine ⟨_, h1, ?_, rfl, rfl⟩
    exact ⟨Nat.zero_le _, h2⟩

/-- What `constructors_postcondition` gives for size 3, value 7, the list
1, 2 and `Reserve(3)`. -/
theorem constructors_postcondition_witness :
    (3 ≠ 0 → heapOf 9 3 ≠ none) ∧ ([1, 2].length ≠ 0 → heapOf 9 [1, 2].length ≠ none) ∧
    (∃ v, SimpleVector.ctor_size (heapOf 9) 3 = .ok v ∧ v.elems = [0, 0, 0]) ∧
    (∃ v, SimpleVector.ctor_size_value (heapOf 9) 3 7 = .ok v ∧ v.elems = [7, 7, 7]) ∧
    (∃ v, SimpleVector.ctor_init_list (heapOf 9) [1, 2] = .ok v ∧ v.elems = [1, 2]) ∧
    (∃ v, SimpleVector.ctor_reserve (heapOf 9) (Reserve 3) = .ok v ∧
      v.size_ = 0 ∧ v.capacity_ = 3) := by
  have h := constructors_postcondition (heapOf 9) 3 7 [1, 2] (fun _ => by simp [heapOf])
    (fun _ => by simp [heapOf])
  obtain ⟨-, ⟨v1, a1, -, -, -, a5⟩, ⟨v2, b1, -, -, -, b5⟩, ⟨v3, c1, -, -, -, c5⟩,
    ⟨v4, d1, -, d3, d4⟩⟩ := h
  exact ⟨fun _ => by simp [heapOf], fun _ => by simp [heapOf], ⟨v1, a1, a5⟩, ⟨v2, b1, b5⟩,
    ⟨v3, c1, c5⟩, ⟨v4, d1, d3, d4⟩⟩

/-- The growth of the capacity under `PushBack`, on numbers: a capacity that
is 0 for length 0, and otherwise a power of two that is at least the length
and less than twice the length, stays so when the length goes up by one and
the capacity follows the rule of `PushBack`. -/
theorem capacity_step (k c : Nat)
    (h : (k = 0 ∧ c = 0) ∨ ∃ m, c = 2 ^ m ∧ k ≤ c ∧ c < 2 * k) :
    (k < c → ∃ m, c = 2 ^ m ∧ k + 1 ≤ c ∧ c < 2 * (k + 1)) ∧
    (¬ k < c → ∃ m, max (k + 1) (c * 2) = 2 ^ m ∧ k + 1 ≤ max (k + 1) (c * 2) ∧
      max (k + 1) (c * 2) < 2 * (k + 1)) := by
  constructor
  · intro hlt
    rcases h with ⟨h1, h2⟩ | ⟨m, h1, h2, h3⟩
    · omega
    · exact ⟨m, h1, by omega, by omega⟩
  · intro hge
    rcases h with ⟨h1, h2⟩ | ⟨m, h1, h2, h3⟩
    · subst h1 h2
      exact ⟨0, by simp, by simp, by simp⟩
    · have hkc : k = c := by omega
      have hpos : 0 < c := by omega
      have hmax : max (k + 1) (c * 2) = c * 2 := by omega
      refine ⟨m + 1, ?_, by omega, by omega⟩
      rw [hmax, h1, pow_succ]

namespace SimpleVector

variable {α : Type}

/-- With an allocation service that never fails, a run of `PushBack` calls
keeps the capacity 0 for length 0 and otherwise a power of two that is at
least the length and less than twice the length. -/
theorem PushBack_all_capacity [Inhabited α] (heap : Heap α) (hheap : ∀ n, heap n ≠ none)
    (self : SimpleVector α) (hwf : WF self) (vs : List α)
    (h : (self.size_ = 0 ∧ self.capacity_ = 0) ∨
      ∃ m, self.capacity_ = 2 ^ m ∧ self.size_ ≤ self.capacity_ ∧
        self.capacity_ < 2 * self.size_) :
    ((PushBack_all heap self vs).1.size_ = 0 ∧ (PushBack_all heap self vs).1.capacity_ = 0) ∨
      ∃ m, (PushBack_all heap self vs).1.capacity_ = 2 ^ m ∧
        (PushBack_all heap self vs).1.size_ ≤ (PushBack_all heap self vs).1.capacity_ ∧
        (PushBack_all heap self vs).1.capacity_ < 2 * (PushBack_all heap self vs).1.size_ := by
  induction vs generalizing self with
  | nil => exact h
  | cons v vs ih =>
    obtain ⟨p1, p2, p3, -, p5, p6⟩ := PushBack_ok heap self v hwf (fun _ => hheap _)
    obtain ⟨s1, s2⟩ := capacity_step self.size_ self.capacity_ h
    simp only [PushBack_all]
    split
    · rename_i s e heq
      rw [heq] at p1
      simp at p1
    · rename_i s u heq
      rw [heq] at p2 p3 p5 p6
      simp only at p2 p3 p5 p6
      apply ih s p2
      right
      by_cases c : self.size_ < self.capacity_
      · rw [p3, p5 c]
        exact s1 c
      · rw [p3, p6 c]
        exact s2 c

/-- C20.  With an allocation service that never fails, after `k` `PushBack`
calls on the default-constructed container the capacity is 0 when `k` is 0,
and for `k ≥ 1` it is the least power of two that is at least `k`; so the
capacity of the non-empty container is less than twice its length. -/
theorem PushBack_capacity_power_of_two [Inhabited α] (heap : Heap α)
    (hheap : ∀ n, heap n ≠ none) (vs : List α) :
    (PushBack_all heap ctor_default vs).1.size_ = vs.length ∧
    (vs.length = 0 → (PushBack_all heap ctor_default vs).1.capacity_ = 0) ∧
    (1 ≤ vs.length →
      (∃ m, (PushBack_all heap ctor_default vs).1.capacity_ = 2 ^ m ∧
        vs.length ≤ 2 ^ m ∧ ∀ j, vs.length ≤ 2 ^ j → 2 ^ m ≤ 2 ^ j) ∧
      (PushBack_all heap ctor_default vs).1.capacity_
        < 2 * (PushBack_all heap ctor_default vs).1.size_) := by
  obtain ⟨-, -, q3, -⟩ := PushBack_all_ok heap hheap ctor_default WF_ctor_default vs
  have hsz : (PushBack_all heap ctor_default vs).1.size_ = vs.length := by
    rw [q3]; simp [ctor_default]
  have hcap := PushBack_all_capacity heap hheap ctor_default WF_ctor_default vs
    (Or.inl ⟨rfl, rfl⟩)
  rw [hsz] at hcap
  refine ⟨hsz, ?_, ?_⟩
  · intro h0
    rcases hcap with ⟨-, h⟩ | ⟨m, h1, h2, h3⟩
    · exact h
    · omega
  · intro h1
    rcases hcap with ⟨h, -⟩ | ⟨m, e1, e2, e3⟩
    · omega
    · rw [hsz]
      refine ⟨⟨m, e1, by rw [← e1]; exact e2, ?_⟩, e3⟩
      intro j hj
      by_contra hlt
      have hjm : j < m := by
        by_contra hge
        exact hlt (Nat.pow_le_pow_right (by decide) (by omega))
      have h2 : 2 ^ (j + 1) ≤ 2 ^ m := Nat.pow_le_pow_right (by decide) hjm
      rw [pow_succ] at h2
      omega

/-- What `PushBack_capacity_power_of_two` gives after five pushes: capacity
8. -/
theorem PushBack_capacity_power_of_two_witness :
    (∀ n, heapOf 0 n ≠ none) ∧
    (PushBack_all (heapOf 0) ctor_default [1, 2, 3, 4, 5]).1.capacity_ = 8 ∧
    (∃ m, (PushBack_all (heapOf 0) ctor_default [1, 2, 3, 4, 5]).1.capacity_ = 2 ^ m ∧
      [1, 2, 3, 4, 5].length ≤ 2 ^ m ∧ ∀ j, [1, 2, 3, 4, 5].length ≤ 2 ^ j → 2 ^ m ≤ 2 ^ j) :=
  ⟨fun _ => by simp [heapOf], by decide,
   ((PushBack_capacity_power_of_two (heapOf 0) (fun _ => by simp [heapOf])
      [1, 2, 3, 4, 5]).2.2 (by decide)).1⟩

end SimpleVector

/-! ## The members in the store agree with the members on values -/

theorem Store.read_write_same {α : Type} (st : Store α) (p : Option Nat) (buf : List α)
    (h : p = none → buf = []) : (st.write p buf).read p = buf := by
  cases p with
  | none => simp [Store.write, Store.read, h rfl]
  | some a => simp [Store.write, Store.read]

theorem Store.read_none_length {α : Type} (st : Store α) (p : Option Nat) (buf : List α)
    (hlen : buf.length = (st.read p).length) : p = none → buf = [] := by
  intro h
  subst h
  exact List.eq_nil_of_length_eq_zero (by simpa [Store.read] using hlen)

theorem copyWithinN_nil {α : Type} (n first d_first : Nat) :
    copyWithinN n first d_first ([] : List α) = [] := by
  cases n <;> simp [copyWithinN]

theorem moveWithinN_nil {α : Type} (mv : α → α) (n first d_first : Nat) :
    moveWithinN mv n first d_first ([] : List α) = [] := by
  cases n <;> simp [moveWithinN]

namespace Layout

variable {α : Type}

/-- Member `Resize` in the store does to the container an object stands for what
`Resize` does on values, when the allocation does not hand out the address of
the object's own buffer. -/
theorem Resize_load [Inhabited α] (heap : Heap α) (place : Store α → Nat) (st : Store α)
    (self : Layout) (new_size : Nat) (hfresh : self.items_ ≠ some (place st)) :
    ((Resize heap place st self new_size).2.1.load (Resize heap place st self new_size).1,
      (Resize heap place st self new_size).2.2)
      = SimpleVector.Resize heap (self.load st) new_size := by
  unfold Resize SimpleVector.Resize
  simp only [load]
  by_cases c1 : new_size ≤ self.size_
  · rw [if_pos c1, if_pos c1]
  · by_cases c2 : new_size ≤ self.capacity_
    · rw [if_neg c1, if_pos c2, if_neg c1, if_pos c2]
      simp only
      rw [Store.read_write_same _ _ _
        (Store.read_none_length st _ _ (by simp [stdFill, length_fillN]))]
    · rw [if_neg c1, if_neg c2, if_neg c1, if_neg c2]
      have c3 : max new_size (self.capacity_ * 2) ≠ 0 := by omega
      simp only [ArrayPtr.create_at, ArrayPtr.create, c3, if_false]
      cases hh : heap (max new_size (self.capacity_ * 2)) with
      | none => rfl
      | some init =>
        have hread : ∀ b : List α,
            Store.read (Function.update st (place st) (some b)) self.items_
              = Store.read st self.items_ := by
          intro b
          apply Store.read_congr
          intro a ha
          have hne : a ≠ place st := fun e => hfresh (by rw [ha, e])
          exact Function.update_noteq hne _ _
        simp only [Store.write, Function.update_idem]
        simp only [Store.read, Function.update_same, Option.getD_some]
        have h := hread (List.map init (List.range (max new_size (self.capacity_ * 2))))
        simp only [Store.read] at h
        rw [h]
        congr 2
        cases hp : self.items_ with
        | none => simp [Store.release]
        | some a =>
          have hne : place st ≠ a := fun e => hfresh (by rw [hp, e])
          simp [Store.release, Function.update_noteq hne]

/-- Member `PushBack` in the store does to the container an object stands for what
`PushBack` does on values. -/
theorem PushBack_load [Inhabited α] (heap : Heap α) (place : Store α → Nat) (st : Store α)
    (self : Layout) (item : α) (hfresh : self.items_ ≠ some (place st)) :
    ((PushBack heap place st self item).2.1.load (PushBack heap place st self item).1,
      (PushBack heap place st self item).2.2)
      = SimpleVector.PushBack heap (self.load st) item := by
  have hR := Resize_load heap place st self (self.size_ + 1) hfresh
  unfold PushBack SimpleVector.PushBack
  by_cases c : self.size_ < self.capacity_
  · have c' : (self.load st).size_ < (self.load st).capacity_ := c
    rw [if_pos c, if_pos c']
    simp only [load]
    rw [Store.read_write_same _ _ _ (Store.read_none_length st _ _ (by simp))]
  · have c' : ¬ (self.load st).size_ < (self.load st).capacity_ := c
    rw [if_neg c, if_neg c']
    have hsz : (self.load st).size_ = self.size_ := rfl
    rw [hsz, ← hR]
    rcases hres : Resize heap place st self (self.size_ + 1) with ⟨st1, self1, r⟩
    cases r with
    | error e => rfl
    | ok u =>
      simp only [load]
      rw [Store.read_write_same _ _ _ (Store.read_none_length st1 _ _ (by simp))]

/-- Member `Insert` in the store does to the container an object stands for what
`Insert` does on values. -/
theorem Insert_load [Inhabited α] (heap : Heap α) (place : Store α → Nat) (st : Store α)
    (self : Layout) (pos : Nat) (value : α) (hfresh : self.items_ ≠ some (place st)) :
    ((Insert heap place st self pos value).2.1.load (Insert heap place st self pos value).1,
      (Insert heap place st self pos value).2.2)
      = SimpleVector.Insert heap (self.load st) pos value := by
  have hR := Resize_load heap place st self (self.size_ + 1) hfresh
  unfold Insert SimpleVector.Insert
  have hsz : (self.load st).size_ = self.size_ := rfl
  simp only
  rw [hsz, ← hR]
  rcases hres : Resize heap place st self (self.size_ + 1) with ⟨st1, self1, r⟩
  cases r with
  | error e => rfl
  | ok u =>
    simp only [load]
    cases hp : self1.items_ with
    | none => simp [Store.write, Store.read, stdCopyWithin, copyWithinN_nil]
    | some a => simp [Store.write, Store.read]

/-- The moving `Insert` in the store does to the container an object stands
for what the moving `Insert` does on values. -/
theorem Insert_move_load [Inhabited α] (mv : α → α) (heap : Heap α) (place : Store α → Nat)
    (st : Store α) (self : Layout) (pos : Nat) (value : α)
    (hfresh : self.items_ ≠ some (place st)) :
    ((Insert_move mv heap place st self pos value).2.1.load
        (Insert_move mv heap place st self pos value).1,
      (Insert_move mv heap place st self pos value).2.2)
      = SimpleVector.Insert_move mv heap (self.load st) pos value := by
  have hR := Resize_load heap place st self (self.size_ + 1) hfresh
  unfold Insert_move SimpleVector.Insert_move
  have hsz : (self.load st).size_ = self.size_ := rfl
  simp only
  rw [hsz, ← hR]
  rcases hres : Resize heap place st self (self.size_ + 1) with ⟨st1, self1, r⟩
  cases r with
  | error e => rfl
  | ok u =>
    simp only [load]
    cases hp : self1.items_ with
    | none => simp [Store.write, Store.read, stdMoveWithin, moveWithinN_nil]
    | some a => simp [Store.write, Store.read]

/-- Member `Erase` in the store does to the container an object stands for what
`Erase` does on values. -/
theorem Erase_load (mv : α → α) (st : Store α) (self : Layout) (pos : Nat) :
    ((Erase mv st self pos).2.1.load (Erase mv st self pos).1, (Erase mv st self pos).2.2)
      = SimpleVector.Erase mv (self.load st) pos := by
  unfold Erase SimpleVector.Erase
  simp only [load]
  rw [Store.read_write_same _ _ _
    (Store.read_none_length st _ _ (by simp [stdMoveWithin, length_moveWithinN]))]

end Layout
